import Mathlib

set_option maxRecDepth 4000

/-!
Verification of the PascoAI client-side encryption core (`src/lib/crypto.ts`)
and the per-device attempt-lockout logic of `src/pages/CryptoLab.tsx`.

Strings are embedded as `List Char`, byte sequences as `List Nat` with each
element below 256.  Host platform primitives that the source delegates to
(WebCrypto AES-GCM / PBKDF2 / SHA-256, `TextEncoder`/`TextDecoder`,
`btoa`/`atob`, `JSON.stringify`/`JSON.parse`) are modelled as ideal,
executable functions; every function that lives in the repository's own
source is translated line by line.
-/

namespace Pasco

abbrev Str := List Char

abbrev Bytes := List Nat

/-- Bytes are naturals below 256. -/
def ValidBytes (bs : Bytes) : Prop := ∀ b ∈ bs, b < 256

instance (bs : Bytes) : Decidable (ValidBytes bs) :=
  inferInstanceAs (Decidable (∀ b ∈ bs, b < 256))

/-- JavaScript `String.prototype.trim` whitespace class: WhiteSpace (TAB,
VT, FF, SP, NBSP, ZWNBSP and the Zs space separators U+1680, U+2000-U+200A,
U+202F, U+205F, U+3000) plus LineTerminator (LF, CR, LS, PS). -/
def isJsWs (c : Char) : Bool :=
  let n := c.toNat
  (n = 32) || (n = 9) || (n = 10) || (n = 11) || (n = 12) || (n = 13) ||
  (n = 160) || (n = 65279) || (n = 5760) ||
  (8192 ≤ n && n ≤ 8202) || (n = 8232) || (n = 8233) || (n = 8239) ||
  (n = 8287) || (n = 12288)

/-- Model of JavaScript `s.trim()`: drop leading and trailing whitespace. -/
def trim (s : Str) : Str :=
  ((s.dropWhile isJsWs).reverse.dropWhile isJsWs).reverse

/-- Model of JavaScript `s.split(".")`: every occurrence of `'.'` separates
segments, empty segments are kept, and the result is never empty. -/
def splitOnDot : Str → List Str
  | [] => [[]]
  | c :: rest =>
    match splitOnDot rest with
    | [] => [[c]]
    | s :: ss => if c = '.' then [] :: s :: ss else (c :: s) :: ss

/-- Model of JavaScript `s.startsWith(pat)` (pattern is the first argument). -/
def startsWith : Str → Str → Bool
  | [], _ => true
  | _ :: _, [] => false
  | p :: ps, c :: cs => p = c && startsWith ps cs

/-- Modelled from the spec: the host `TextEncoder` (§4.1's password/plaintext
encoding step), idealised as an injective character-to-bytes codec mapping
each character to three little-endian base-256 digits of its code point. -/
def utf8EncodeChar (c : Char) : Bytes :=
  [c.toNat % 256, c.toNat / 256 % 256, c.toNat / 65536]

/-- Byte encoding of a whole string, character by character. -/
def utf8Encode : Str → Bytes
  | [] => []
  | c :: cs => utf8EncodeChar c ++ utf8Encode cs

/-- Modelled from the spec: the host `TextDecoder`, inverse of `utf8Encode`;
leftover or invalid bytes decode to the replacement character, mirroring the
decoder's total (never-throwing) behaviour. -/
def utf8Decode : Bytes → Str
  | b0 :: b1 :: b2 :: rest => Char.ofNat (b0 + 256 * b1 + 65536 * b2) :: utf8Decode rest
  | [] => []
  | _ => [Char.ofNat 65533]

/-- Little-endian base-128 length encoding (continuation bit on all digits
but the last); used by the serialization layers modelling host primitives. -/
def lebEnc (n : Nat) : Bytes :=
  if n < 128 then [n] else (n % 128 + 128) :: lebEnc (n / 128)
termination_by n
decreasing_by exact Nat.div_lt_self (by omega) (by omega)

/-- Decoder for `lebEnc`, returning the value and the remaining bytes. -/
def lebDec : Bytes → Option (Nat × Bytes)
  | [] => none
  | b :: rest =>
    if b < 128 then some (b, rest)
    else
      match lebDec rest with
      | some (m, r) => some (b - 128 + 128 * m, r)
      | none => none

/-- Length-prefixed byte block. -/
def blockEnc (l : Bytes) : Bytes := lebEnc l.length ++ l

/-- Decoder for `blockEnc`. -/
def blockDec (bs : Bytes) : Option (Bytes × Bytes) :=
  match lebDec bs with
  | none => none
  | some (n, r) => if n ≤ r.length then some (r.take n, r.drop n) else none

/-- Sign-and-magnitude integer encoding on top of `lebEnc`. -/
def intEnc (i : Int) : Bytes :=
  (if i < 0 then 1 else 0) :: lebEnc i.natAbs

/-- Decoder for `intEnc`. -/
def intDec : Bytes → Option (Int × Bytes)
  | [] => none
  | s :: rest =>
    match lebDec rest with
    | none => none
    | some (m, r) =>
      if s = 1 then some (-(m : Int), r)
      else if s = 0 then some ((m : Int), r)
      else none

/-- Length-prefixed string field (characters through `utf8Encode`). -/
def strBlockEnc (s : Str) : Bytes := blockEnc (utf8Encode s)

/-- Decoder for `strBlockEnc`. -/
def strBlockDec (bs : Bytes) : Option (Str × Bytes) :=
  (blockDec bs).map (fun p => (utf8Decode p.1, p.2))

/-- Tagged encoding of an optional field. -/
def optEnc {α : Type} (f : α → Bytes) : Option α → Bytes
  | none => [0]
  | some x => 1 :: f x

/-- Decoder for `optEnc`. -/
def optDec {α : Type} (f : Bytes → Option (α × Bytes)) : Bytes → Option (Option α × Bytes)
  | [] => none
  | t :: rest =>
    if t = 0 then some (none, rest)
    else if t = 1 then (f rest).map (fun p => (some p.1, p.2))
    else none

/-- Standard base64 alphabet, index to character. -/
def stdB64Char (n : Nat) : Char :=
  Char.ofNat
    (if n < 26 then 65 + n
     else if n < 52 then 71 + n
     else if n < 62 then n - 4
     else if n = 62 then 43
     else 47)

/-- Base64url alphabet as produced by `toB64Url` (the source applies `btoa`
and then rewrites `'+'` to `'-'` and `'/'` to `'_'`; composing the two gives
this character table directly). -/
def urlB64Char (n : Nat) : Char :=
  if n = 62 then Char.ofNat 45 else if n = 63 then Char.ofNat 95 else stdB64Char n

/-- Standard base64 alphabet, character to index. -/
def decStdB64 (c : Char) : Option Nat :=
  let n := c.toNat
  if 65 ≤ n ∧ n ≤ 90 then some (n - 65)
  else if 97 ≤ n ∧ n ≤ 122 then some (n - 71)
  else if 48 ≤ n ∧ n ≤ 57 then some (n + 4)
  else if n = 43 then some 62
  else if n = 47 then some 63
  else none

/-- Groups of three bytes become four 6-bit values (bit layout of base64). -/
def bytesToSextets : Bytes → Bytes
  | [] => []
  | [a] => [a / 4, a % 4 * 16]
  | [a, b] => [a / 4, a % 4 * 16 + b / 16, b % 16 * 4]
  | a :: b :: c :: rest =>
    a / 4 :: (a % 4 * 16 + b / 16) :: (b % 16 * 4 + c / 64) :: c % 64 :: bytesToSextets rest

/-- Groups of four 6-bit values back to three bytes; leftover bits of a
trailing 2- or 3-value group are discarded (forgiving-base64 behaviour). -/
def sextetsToBytes : Bytes → Bytes
  | [] => []
  | [_] => []
  | [x, y] => [x * 4 + y / 16]
  | [x, y, z] => [x * 4 + y / 16, y % 16 * 16 + z / 4]
  | x :: y :: z :: w :: rest =>
    (x * 4 + y / 16) :: (y % 16 * 16 + z / 4) :: (z % 4 * 64 + w) :: sextetsToBytes rest

/-- The base64 padding character `'='`. -/
def padChar : Char := Char.ofNat 61

/-- ASCII whitespace stripped by forgiving-base64 (`atob`). -/
def isAsciiWs (c : Char) : Bool :=
  let n := c.toNat
  (n = 9) || (n = 10) || (n = 12) || (n = 13) || (n = 32)

/-- Remove up to two trailing `'='` characters. -/
def dropTrailingEq (s : Str) : Str :=
  match s.reverse with
  | c1 :: c2 :: r => if c1 = padChar ∧ c2 = padChar then r.reverse
                     else if c1 = padChar then (c2 :: r).reverse
                     else s
  | [c1] => if c1 = padChar then [] else s
  | [] => s

/-- Option-valued map over characters, failing if any character fails. -/
def mapOpt (f : Char → Option Nat) : Str → Option Bytes
  | [] => some []
  | c :: cs =>
    match f c, mapOpt f cs with
    | some n, some r => some (n :: r)
    | _, _ => none

/-- First stage of the host `atob` (forgiving-base64): strip ASCII
whitespace. -/
def atobStrip (s : Str) : Str := s.filter (fun c => !(isAsciiWs c))

/-- Second stage of the host `atob`: strip up to two trailing `'='` when the
length is a multiple of four. -/
def atobUnpad (s1 : Str) : Str :=
  if s1.length % 4 = 0 then dropTrailingEq s1 else s1

/-- Modelled from the spec: the host `atob` (forgiving-base64 decode): strip
ASCII whitespace, strip up to two trailing `'='` when the length is a
multiple of four, reject length 1 mod 4 and foreign characters, then decode
6-bit groups into bytes. -/
def atobModel (s : Str) : Option Bytes :=
  if (atobUnpad (atobStrip s)).length % 4 = 1 then none
  else (mapOpt decStdB64 (atobUnpad (atobStrip s))).map sextetsToBytes

/-- The number of `'='` characters `fromB64Url` appends:
JavaScript `"===".slice((s.length + 3) % 4)`. -/
def padFor (n : Nat) : Str := List.replicate (3 - (n + 3) % 4) padChar

/-- Source `fromB64Url`: rewrite the url alphabet back to the standard one,
re-append padding, and run `atob`.  `none` models the thrown exception. -/
def fromB64Url (s : Str) : Option Bytes :=
  atobModel (s.map (fun c => if c = Char.ofNat 45 then Char.ofNat 43
                             else if c = Char.ofNat 95 then Char.ofNat 47
                             else c)
             ++ padFor s.length)

/-- Source `toB64Url`: base64 the bytes (host `btoa`), apply the url
alphabet, and strip the padding — composed into one direct encoding. -/
def toB64Url (bytes : Bytes) : Str := (bytesToSextets bytes).map urlB64Char

/-- Lower-case hexadecimal digit. -/
def hexChar (n : Nat) : Char := Char.ofNat (if n < 10 then 48 + n else 87 + n)

/-- Modelled from the spec: `sha256Hex` — the host SHA-256 digest rendered in
hex (§4.4).  Idealised as an executable deterministic function of exactly the
input bytes (here: their hex rendering); the claims under verification depend
only on which bytes are hashed, never on the digest's internal structure. -/
def sha256Hex : Bytes → Str
  | [] => []
  | b :: bs => hexChar (b / 16 % 16) :: hexChar (b % 16) :: sha256Hex bs

/-- Modelled from the spec: a PBKDF2-SHA256 derived key (§4.1) is determined
by the password bytes, the salt, and the iteration count; the symbolic key
records exactly those inputs (determinism and input-sensitivity are the only
properties relied upon). -/
structure SymKey where
  pw : Bytes
  salt : Bytes
  iter : Int
deriving DecidableEq, Repr

/-- Source `deriveKey`: encode the password and stretch it with the salt and
iteration count (the host PBKDF2 call is the symbolic `SymKey`). -/
def deriveKey (password : Str) (salt : Bytes) (iterations : Int) : SymKey :=
  ⟨utf8Encode password, salt, iterations⟩

/-- Modelled from the spec: host AES-256-GCM encryption (§4.2), idealised as
an injective serialization of the key material, IV and plaintext into the
ciphertext-plus-tag byte string. -/
def aesGcmEncrypt (key : SymKey) (iv : Bytes) (pt : Bytes) : Bytes :=
  blockEnc key.pw ++ (blockEnc key.salt ++ (intEnc key.iter ++ (blockEnc iv ++ pt)))

/-- Modelled from the spec: host AES-256-GCM decryption (§4.2): recover the
embedded key material and IV and compare them with the supplied ones; any
mismatch is the authentication-tag failure (`none`). -/
def aesGcmDecrypt (key : SymKey) (iv : Bytes) (ct : Bytes) : Option Bytes :=
  match blockDec ct with
  | none => none
  | some (pw, r1) =>
    match blockDec r1 with
    | none => none
    | some (salt, r2) =>
      match intDec r2 with
      | none => none
      | some (it, r3) =>
        match blockDec r3 with
        | none => none
        | some (ivv, pt) =>
          if pw = key.pw ∧ salt = key.salt ∧ it = key.iter ∧ ivv = iv
          then some pt else none

/-- Source `PascoHeader` (duck-typed shape produced by `JSON.parse`; `kind`
is an arbitrary string because decode never validates it). -/
structure PascoHeader where
  v : Int
  alg : Str
  kdf : Str
  iter : Int
  salt : Str
  iv : Str
  createdAt : Str
  kind : Str
  filename : Option Str := none
  mime : Option Str := none
  size : Option Int := none
  note : Option Str := none
deriving DecidableEq, Repr

/-- Modelled from the spec: `JSON.stringify` of the header followed by UTF-8
encoding (§4.3's "serialized to a compact structured form"), idealised as a
field-by-field injective byte serialization in source field order. -/
def headerToBytes (h : PascoHeader) : Bytes :=
  intEnc h.v ++ strBlockEnc h.alg ++ strBlockEnc h.kdf ++ intEnc h.iter ++
  strBlockEnc h.salt ++ strBlockEnc h.iv ++ strBlockEnc h.createdAt ++
  strBlockEnc h.kind ++ optEnc strBlockEnc h.filename ++
  optEnc strBlockEnc h.mime ++ optEnc intEnc h.size ++ optEnc strBlockEnc h.note

/-- Modelled from the spec: UTF-8 decode plus `JSON.parse` back into the
header shape; `none` models a parse exception. -/
def headerFromBytes (bs : Bytes) : Option PascoHeader :=
  match intDec bs with
  | none => none
  | some (v, r1) =>
  match strBlockDec r1 with
  | none => none
  | some (alg, r2) =>
  match strBlockDec r2 with
  | none => none
  | some (kdf, r3) =>
  match intDec r3 with
  | none => none
  | some (iter, r4) =>
  match strBlockDec r4 with
  | none => none
  | some (salt, r5) =>
  match strBlockDec r5 with
  | none => none
  | some (iv, r6) =>
  match strBlockDec r6 with
  | none => none
  | some (createdAt, r7) =>
  match strBlockDec r7 with
  | none => none
  | some (kind, r8) =>
  match optDec strBlockDec r8 with
  | none => none
  | some (filename, r9) =>
  match optDec strBlockDec r9 with
  | none => none
  | some (mime, r10) =>
  match optDec intDec r10 with
  | none => none
  | some (size, r11) =>
  match optDec strBlockDec r11 with
  | none => none
  | some (note, r12) =>
    if r12 = [] then
      some ⟨v, alg, kdf, iter, salt, iv, createdAt, kind, filename, mime, size, note⟩
    else none

/-- Source `packHeader`: serialize then base64url. -/
def packHeader (h : PascoHeader) : Str := toB64Url (headerToBytes h)

/-- Source `unpackHeader`: base64url-decode then parse; `none` models the
exceptions thrown by `atob` or `JSON.parse`. -/
def unpackHeader (s : Str) : Option PascoHeader :=
  match fromB64Url s with
  | none => none
  | some bs => headerFromBytes bs

/-- The literal token magic `"PASCO1."` including the first separator. -/
def magicStr : Str := ['P', 'A', 'S', 'C', 'O', '1', '.']

/-- The string `"AES-256-GCM"`. -/
def algStr : Str := ['A', 'E', 'S', '-', '2', '5', '6', '-', 'G', 'C', 'M']

/-- The string `"PBKDF2-SHA256"`. -/
def kdfStr : Str := ['P', 'B', 'K', 'D', 'F', '2', '-', 'S', 'H', 'A', '2', '5', '6']

/-- The string `"text"`. -/
def textKind : Str := ['t', 'e', 'x', 't']

/-- The string `"file"`. -/
def fileKind : Str := ['f', 'i', 'l', 'e']

/-- The string `"application/octet-stream"`. -/
def octetStream : Str :=
  ['a', 'p', 'p', 'l', 'i', 'c', 'a', 't', 'i', 'o', 'n', '/',
   'o', 'c', 't', 'e', 't', '-', 's', 't', 'r', 'e', 'a', 'm']

/-- Source `EncryptTextOptions`. -/
structure EncryptTextOptions where
  password : Str
  note : Option Str := none
  iterations : Option Int := none

/-- Source `EncryptFileOptions`. -/
structure EncryptFileOptions where
  password : Str
  note : Option Str := none
  iterations : Option Int := none

/-- A browser `File` as far as `encryptFile` reads it: `name`, `type`
(mime, possibly empty), and its content bytes (`size` is their count). -/
structure JsFile where
  name : Str
  type : Str
  content : Bytes

/-- Source `DecryptResult`. -/
inductive DecryptResult where
  | text (header : PascoHeader) (text : Str) (fingerprint : Str)
  | file (header : PascoHeader) (bytes : Bytes) (fingerprint : Str)
deriving DecidableEq, Repr

/-- The fingerprint carried by a decrypt result. -/
def DecryptResult.fingerprint : DecryptResult → Str
  | .text _ _ fp => fp
  | .file _ _ fp => fp

/-- The header carried by a decrypt result. -/
def DecryptResult.header : DecryptResult → PascoHeader
  | .text h _ _ => h
  | .file h _ _ => h

/-- Return type of the encrypt operations. -/
structure EncOut where
  token : Str
  header : PascoHeader
  fingerprint : Str
deriving DecidableEq, Repr

/-- The iteration clamp `Math.max(50_000, Math.min(600_000, x))` shared by
both encrypt operations. -/
def clampIter (q : Int) : Int := max 50000 (min 600000 q)

/-- The note normalization `opts.note?.trim() || undefined`. -/
def noteNorm : Option Str → Option Str
  | none => none
  | some n => if trim n = [] then none else some (trim n)

/-- Token assembly `` `PASCO1.${headerB64}.${cipherB64}` ``. -/
def tokenOf (h : PascoHeader) (ct : Bytes) : Str :=
  magicStr ++ packHeader h ++ '.' :: toB64Url ct

/-- Source `encryptText`.  The random salt and IV drawn from
`crypto.getRandomValues` and the `createdAt` timestamp are nondeterministic
inputs of the source and are passed in explicitly. -/
def encryptText (text : Str) (opts : EncryptTextOptions)
    (salt iv : Bytes) (createdAt : Str) : EncOut :=
  let iterations := clampIter (opts.iterations.getD 220000)
  let key := deriveKey opts.password salt iterations
  let pt := utf8Encode text
  let ctBytes := aesGcmEncrypt key iv pt
  let header : PascoHeader :=
    { v := 1, alg := algStr, kdf := kdfStr, iter := iterations,
      salt := toB64Url salt, iv := toB64Url iv, createdAt := createdAt,
      kind := textKind, note := noteNorm opts.note }
  { token := tokenOf header ctBytes, header := header,
    fingerprint := sha256Hex ctBytes }

/-- Source `encryptFile`; same shape as `encryptText` with the file content
as plaintext and the file metadata recorded in the header. -/
def encryptFile (file : JsFile) (opts : EncryptFileOptions)
    (salt iv : Bytes) (createdAt : Str) : EncOut :=
  let iterations := clampIter (opts.iterations.getD 260000)
  let key := deriveKey opts.password salt iterations
  let pt := file.content
  let ctBytes := aesGcmEncrypt key iv pt
  let header : PascoHeader :=
    { v := 1, alg := algStr, kdf := kdfStr, iter := iterations,
      salt := toB64Url salt, iv := toB64Url iv, createdAt := createdAt,
      kind := fileKind, filename := some file.name,
      mime := some (if file.type = [] then octetStream else file.type),
      size := some (file.content.length : Int), note := noteNorm opts.note }
  { token := tokenOf header ctBytes, header := header,
    fingerprint := sha256Hex ctBytes }

/-- The errors `decryptToken` / `fingerprintFromToken` can throw, by cause:
the first six are the structural (format) rejections, the `*B64` ones are
`atob` exceptions while decoding header-referenced fields or the ciphertext
segment, and `auth` is "Wrong key or corrupted token." -/
inductive DecErr where
  | badMagic | badSegments | badHeader | badVersion | badAlg | badKdf
  | badSaltB64 | badIvB64 | badCtB64
  | auth
deriving DecidableEq, Repr

/-- Cryptographic work units, recorded in order of execution so that the
claims about "before any cryptography" are statable. -/
inductive CryptoOp where
  | deriveKeyOp | aeadDecryptOp | hashOp
deriving DecidableEq, Repr

/-- Source `decryptToken` on an already-trimmed token, also returning the
trace of cryptographic operations performed, in source order: format checks
first (no operations), then key derivation, AEAD decryption, and the
fingerprint hash. -/
def decryptTokenBody (trimmed : Str) (password : Str) :
    Except DecErr DecryptResult × List CryptoOp :=
  if startsWith magicStr trimmed then
    match splitOnDot trimmed with
    | [_, seg1, seg2] =>
      match unpackHeader seg1 with
      | none => (.error .badHeader, [])
      | some header =>
        if header.v ≠ 1 then (.error .badVersion, [])
        else if header.alg ≠ algStr then (.error .badAlg, [])
        else if header.kdf ≠ kdfStr then (.error .badKdf, [])
        else
          match fromB64Url header.salt with
          | none => (.error .badSaltB64, [])
          | some salt =>
            match fromB64Url header.iv with
            | none => (.error .badIvB64, [])
            | some iv =>
              match fromB64Url seg2 with
              | none => (.error .badCtB64, [])
              | some ctBytes =>
                match aesGcmDecrypt (deriveKey password salt header.iter) iv ctBytes with
                | none => (.error .auth, [CryptoOp.deriveKeyOp, CryptoOp.aeadDecryptOp])
                | some ptBytes =>
                  if header.kind = textKind then
                    (.ok (.text header (utf8Decode ptBytes) (sha256Hex ctBytes)),
                     [CryptoOp.deriveKeyOp, CryptoOp.aeadDecryptOp, CryptoOp.hashOp])
                  else
                    (.ok (.file header ptBytes (sha256Hex ctBytes)),
                     [CryptoOp.deriveKeyOp, CryptoOp.aeadDecryptOp, CryptoOp.hashOp])
    | _ => (.error .badSegments, [])
  else (.error .badMagic, [])

/-- Source `decryptToken` with its leading `token.trim()`, traced. -/
def decryptTokenT (token : Str) (password : Str) :
    Except DecErr DecryptResult × List CryptoOp :=
  decryptTokenBody (trim token) password

/-- Source `decryptToken`, result only. -/
def decryptToken (token : Str) (password : Str) : Except DecErr DecryptResult :=
  (decryptTokenT token password).1

/-- Source `fingerprintFromToken` on an already-trimmed token, traced: it
validates only the magic and the segment count, decodes the ciphertext
segment, and hashes it — no password and no header parsing. -/
def fingerprintBody (trimmed : Str) : Except DecErr Str × List CryptoOp :=
  if startsWith magicStr trimmed then
    match splitOnDot trimmed with
    | [_, _, seg2] =>
      match fromB64Url seg2 with
      | none => (.error .badCtB64, [])
      | some ctBytes => (.ok (sha256Hex ctBytes), [CryptoOp.hashOp])
    | _ => (.error .badSegments, [])
  else (.error .badMagic, [])

/-- Source `fingerprintFromToken` with its leading `token.trim()`, traced. -/
def fingerprintFromTokenT (token : Str) : Except DecErr Str × List CryptoOp :=
  fingerprintBody (trim token)

/-- Source `fingerprintFromToken`, result only. -/
def fingerprintFromToken (token : Str) : Except DecErr Str :=
  (fingerprintFromTokenT token).1

/-- The `localStorage`-persisted per-fingerprint attempt counters of
`CryptoLab.tsx` (`pasco_crypto_attempts_v2`), modelled as the association
list the stored JSON object denotes. -/
abbrev AttemptsMap := List (Str × Nat)

/-- Lookup with the `?? 0` default of the source. -/
def getAttempts : AttemptsMap → Str → Nat
  | [], _ => 0
  | (k, v) :: rest, fp => if k = fp then v else getAttempts rest fp

/-- JavaScript object assignment `map[fp] = n`. -/
def setAttempts : AttemptsMap → Str → Nat → AttemptsMap
  | [], fp, n => [(fp, n)]
  | (k, v) :: rest, fp, n =>
    if k = fp then (fp, n) :: rest else (k, v) :: setAttempts rest fp n

/-- `const maxAttempts = 5` of `CryptoLab.tsx`. -/
def maxAttempts : Nat := 5

/-- The user-visible outcome of one `runDecrypt` invocation, one constructor
per distinct toast/termination path of the source. -/
inductive RunOutcome where
  | emptyToken
  | emptyPassword
  | locked (fp : Str)
  | success (res : DecryptResult)
  | wrongKeyLocked (fp : Str)
  | wrongKeyLeft (fp : Str) (left : Int)
  | failedOther (e : DecErr)
deriving DecidableEq, Repr

/-- Outcome, updated counter map, and the crypto-operation trace of one
`runDecrypt` invocation. -/
structure RunResult where
  outcome : RunOutcome
  attempts : AttemptsMap
  ops : List CryptoOp
deriving DecidableEq, Repr

/-- Source `runDecrypt` of `CryptoLab.tsx`, UI state elided: trim the pasted
token, refuse empty token/password, then *first* call `decryptToken`; on
success check the lockout counter (refusing, without resetting, when it has
reached `maxAttempts`, else resetting it to 0); on failure charge one
attempt to the ciphertext fingerprint when one is computable.  The source's
local bindings (`token`, `used`, `next`, `left`) are inlined. -/
def runDecrypt (m : AttemptsMap) (tokenToDecrypt decPassword : Str) : RunResult :=
  if trim tokenToDecrypt = [] then ⟨.emptyToken, m, []⟩
  else if trim decPassword = [] then ⟨.emptyPassword, m, []⟩
  else
    match decryptTokenT (trim tokenToDecrypt) decPassword with
    | (.ok res, ops) =>
      if getAttempts m res.fingerprint ≥ maxAttempts then
        ⟨.locked res.fingerprint, m, ops⟩
      else ⟨.success res, setAttempts m res.fingerprint 0, ops⟩
    | (.error e, ops) =>
      match fingerprintFromTokenT (trim tokenToDecrypt) with
      | (.ok fp, ops2) =>
        if max 0 ((maxAttempts : Int) - ((getAttempts m fp + 1 : Nat) : Int)) ≤ 0 then
          ⟨.wrongKeyLocked fp, setAttempts m fp (getAttempts m fp + 1), ops ++ ops2⟩
        else
          ⟨.wrongKeyLeft fp
             (max 0 ((maxAttempts : Int) - ((getAttempts m fp + 1 : Nat) : Int))),
           setAttempts m fp (getAttempts m fp + 1), ops ++ ops2⟩
      | (.error _, ops2) => ⟨.failedOther e, m, ops ++ ops2⟩

/-- Fold a sequence of decrypt attempts over the counter map. -/
def runMany (m : AttemptsMap) (tok : Str) (pws : List Str) : AttemptsMap :=
  pws.foldl (fun acc p => (runDecrypt acc tok p).attempts) m

/-- The four structural-rejection conditions of the claims: missing magic,
wrong segment count, unparseable header, or unsupported
version/algorithm/KDF tags, read off the trimmed token. -/
def BadFormat (tok : Str) : Prop :=
  startsWith magicStr (trim tok) = false ∨
  (splitOnDot (trim tok)).length ≠ 3 ∨
  (∃ s0 s1 s2, splitOnDot (trim tok) = [s0, s1, s2] ∧ unpackHeader s1 = none) ∨
  (∃ s0 s1 s2 h, splitOnDot (trim tok) = [s0, s1, s2] ∧ unpackHeader s1 = some h ∧
    (h.v ≠ 1 ∨ h.alg ≠ algStr ∨ h.kdf ≠ kdfStr))

/-- The errors the spec classifies as FormatError. -/
def IsFormatErr (e : DecErr) : Prop :=
  e = DecErr.badMagic ∨ e = DecErr.badSegments ∨ e = DecErr.badHeader ∨
  e = DecErr.badVersion ∨ e = DecErr.badAlg ∨ e = DecErr.badKdf

/-- A concrete 16-byte salt for witnesses. -/
def saltW : Bytes := List.range 16

/-- A concrete 12-byte IV for witnesses. -/
def ivW : Bytes := List.range 12

/-- Concrete text-encryption options for witnesses. -/
def optsW : EncryptTextOptions := ⟨['p', 'w'], none, none⟩

/-- A concrete encryption result for witnesses. -/
def encW : EncOut := encryptText ['h', 'i'] optsW saltW ivW []

/-- A header carrying the unsupported version tag 2 (counterexample input). -/
def hdrC3 : PascoHeader :=
  ⟨2, algStr, kdfStr, 1000, [], [], [], textKind, none, none, none, none⟩

/-- A token whose magic and segment count are fine and whose ciphertext
segment decodes, but whose header carries version 2. -/
def tokC3 : Str := tokenOf hdrC3 [1, 2, 3]

/-- The fingerprint `runDecrypt` charges for `tokC3`. -/
def fpC3 : Str := sha256Hex [1, 2, 3]

/-- A file with an empty `type` (counterexample input). -/
def fileC8 : JsFile := ⟨['a'], [], [7]⟩

/-- A header whose `kind` is `"blob"`, neither `"text"` nor `"file"`. -/
def hdrC10 : PascoHeader :=
  ⟨1, algStr, kdfStr, 7, toB64Url saltW, toB64Url ivW, [],
   ['b', 'l', 'o', 'b'], none, none, none, none⟩

/-- A well-formed, authenticating token whose header kind is `"blob"`. -/
def tokC10 : Str :=
  tokenOf hdrC10 (aesGcmEncrypt (deriveKey ['p'] saltW 7) ivW [9, 9])

theorem dropWhile_append_all {p : Char → Bool} {a : Str} (b : Str)
    (h : ∀ c ∈ a, p c = true) :
    (a ++ b).dropWhile p = b.dropWhile p := by
  induction a with
  | nil => rfl
  | cons x xs ih =>
    have hx : p x = true := h x (by simp)
    simp only [List.cons_append, List.dropWhile_cons, hx, if_true]
    exact ih fun c hc => h c (by simp [hc])

theorem dropWhile_eq_nil_of_all {p : Char → Bool} {a : Str}
    (h : ∀ c ∈ a, p c = true) : a.dropWhile p = [] := by
  have := dropWhile_append_all (p := p) (a := a) [] h
  simpa using this

theorem dropWhile_append_of_ne_nil {p : Char → Bool} {a : Str} (b : Str)
    (h : a.dropWhile p ≠ []) :
    (a ++ b).dropWhile p = a.dropWhile p ++ b := by
  induction a with
  | nil => simp at h
  | cons x xs ih =>
    by_cases hx : p x = true
    · simp only [List.cons_append, List.dropWhile_cons, hx, if_true]
      simp only [List.dropWhile_cons, hx, if_true] at h
      exact ih h
    · have hx' : p x = false := by simpa using hx
      simp [List.dropWhile_cons, hx']

theorem head_dropWhile_false {p : Char → Bool} {a r : Str} {c : Char}
    (h : a.dropWhile p = c :: r) : p c = false := by
  induction a with
  | nil => simp at h
  | cons x xs ih =>
    by_cases hx : p x = true
    · simp only [List.dropWhile_cons, hx, if_true] at h
      exact ih h
    · have hx' : p x = false := by simpa using hx
      simp only [List.dropWhile_cons, hx', Bool.false_eq_true, if_false,
        List.cons.injEq] at h
      exact h.1 ▸ hx'

theorem dropWhile_eq_self_of_head {p : Char → Bool} {c : Char} (r : Str)
    (h : p c = false) : (c :: r).dropWhile p = c :: r := by
  simp [List.dropWhile_cons, h]

theorem all_of_dropWhile_nil {p : Char → Bool} {a : Str}
    (h : a.dropWhile p = []) : ∀ c ∈ a, p c = true := by
  induction a with
  | nil => intro c hc; simp at hc
  | cons x xs ih =>
    by_cases hx : p x = true
    · simp only [List.dropWhile_cons, hx, if_true] at h
      intro c hc
      rcases List.mem_cons.mp hc with rfl | hc
      · exact hx
      · exact ih h c hc
    · have hx' : p x = false := by simpa using hx
      simp [List.dropWhile_cons, hx'] at h

/-- Surrounding whitespace never changes the trimmed string. -/
theorem trim_ws_append {ws1 ws2 : Str} (t : Str)
    (h1 : ∀ c ∈ ws1, isJsWs c = true) (h2 : ∀ c ∈ ws2, isJsWs c = true) :
    trim (ws1 ++ t ++ ws2) = trim t := by
  unfold trim
  rw [List.append_assoc, dropWhile_append_all _ h1]
  by_cases hall : ∀ c ∈ t, isJsWs c = true
  · rw [dropWhile_append_all _ hall, dropWhile_eq_nil_of_all h2,
      dropWhile_eq_nil_of_all hall]
  · have hne : t.dropWhile isJsWs ≠ [] := by
      intro hnil
      exact hall (all_of_dropWhile_nil hnil)
    rw [dropWhile_append_of_ne_nil _ hne, List.reverse_append,
      dropWhile_append_all _ (fun c hc => h2 c (List.mem_reverse.mp hc))]

theorem head_false_of_dropWhile_self {p : Char → Bool} {d : Char} {tail : Str}
    (h : (d :: tail).dropWhile p = d :: tail) : p d = false := by
  by_contra hpd
  have hpd2 : p d = true := by simpa using hpd
  rw [List.dropWhile_cons, if_pos hpd2] at h
  have hlen := congrArg List.length h
  have hsum := congrArg List.length (List.takeWhile_append_dropWhile (p := p) (l := tail))
  simp only [List.length_append, List.length_cons] at hlen hsum
  omega

theorem trim_idem (s : Str) : trim (trim s) = trim s := by
  unfold trim
  rcases hb : ((s.dropWhile isJsWs).reverse.dropWhile isJsWs) with _ | ⟨c, r⟩
  · simp
  · have hc : isJsWs c = false := head_dropWhile_false hb
    have hpre : s.dropWhile isJsWs
        = (c :: r).reverse ++ ((s.dropWhile isJsWs).reverse.takeWhile isJsWs).reverse := by
      have htw := List.takeWhile_append_dropWhile (p := isJsWs)
        (l := (s.dropWhile isJsWs).reverse)
      rw [hb] at htw
      have := congrArg List.reverse htw
      simpa using this.symm
    rcases hrc : (c :: r).reverse with _ | ⟨d, q⟩
    · simp at hrc
    · have had : s.dropWhile isJsWs
          = d :: (q ++ ((s.dropWhile isJsWs).reverse.takeWhile isJsWs).reverse) := by
        conv_lhs => rw [hpre]
        rw [hrc]; simp
      have hd : isJsWs d = false := by
        have hhead : (s.dropWhile isJsWs).dropWhile isJsWs = s.dropWhile isJsWs := by
          rcases hsd : s.dropWhile isJsWs with _ | ⟨e, u⟩
          · rfl
          · exact dropWhile_eq_self_of_head u (head_dropWhile_false hsd)
        rw [had] at hhead
        exact head_false_of_dropWhile_self hhead
      rw [dropWhile_eq_self_of_head _ hd, ← hrc, List.reverse_reverse,
        dropWhile_eq_self_of_head _ hc]

theorem trim_no_ws {t : Str} (h : ∀ c ∈ t, isJsWs c = false) : trim t = t := by
  have h1 : t.dropWhile isJsWs = t := by
    rcases ht : t with _ | ⟨c, r⟩
    · rfl
    · exact dropWhile_eq_self_of_head _ (h c (by rw [ht]; simp))
  have h2 : t.reverse.dropWhile isJsWs = t.reverse := by
    rcases ht : t.reverse with _ | ⟨c, r⟩
    · rfl
    · refine dropWhile_eq_self_of_head _ (h c ?_)
      have : c ∈ t.reverse := by rw [ht]; simp
      exact List.mem_reverse.mp this
  unfold trim
  rw [h1, h2, List.reverse_reverse]

theorem splitOnDot_ne_nil (s : Str) : splitOnDot s ≠ [] := by
  cases s with
  | nil => simp [splitOnDot]
  | cons c rest =>
    rw [splitOnDot]
    rcases h : splitOnDot rest with _ | ⟨x, xs⟩
    · simp
    · by_cases hc : c = '.' <;> simp [hc]

theorem splitOnDot_no_dot {a : Str} (h : ∀ c ∈ a, c ≠ '.') :
    splitOnDot a = [a] := by
  induction a with
  | nil => rfl
  | cons x xs ih =>
    rw [splitOnDot, ih fun c hc => h c (by simp [hc])]
    have hx : x ≠ '.' := h x (by simp)
    simp [hx]

theorem splitOnDot_append_dot {a : Str} (b : Str) (h : ∀ c ∈ a, c ≠ '.') :
    splitOnDot (a ++ '.' :: b) = a :: splitOnDot b := by
  induction a with
  | nil =>
    rw [List.nil_append, splitOnDot]
    rcases hs : splitOnDot b with _ | ⟨x, xs⟩
    · exact absurd hs (splitOnDot_ne_nil b)
    · simp
  | cons x xs ih =>
    rw [List.cons_append, splitOnDot, ih fun c hc => h c (by simp [hc])]
    have hx : x ≠ '.' := h x (by simp)
    simp [hx]

theorem startsWith_append (p rest : Str) : startsWith p (p ++ rest) = true := by
  induction p with
  | nil => rfl
  | cons x xs ih => simpa [startsWith] using ih

theorem char_toNat_lt (c : Char) : c.toNat < 1114112 := by
  rcases c.valid with h | ⟨h1, h2⟩
  · exact Nat.lt_trans h (by norm_num)
  · exact h2

theorem utf8Decode_encode (s : Str) : utf8Decode (utf8Encode s) = s := by
  induction s with
  | nil => rfl
  | cons c cs ih =>
    have hlt := char_toNat_lt c
    show utf8Decode ((c.toNat % 256 :: c.toNat / 256 % 256 :: c.toNat / 65536 :: []) ++ utf8Encode cs) = c :: cs
    rw [List.cons_append, List.cons_append, List.cons_append, List.nil_append,
      utf8Decode]
    have harith : c.toNat % 256 + 256 * (c.toNat / 256 % 256) + 65536 * (c.toNat / 65536)
        = c.toNat := by omega
    rw [harith, Char.ofNat_toNat, ih]

theorem valid_utf8Encode (s : Str) : ValidBytes (utf8Encode s) := by
  induction s with
  | nil => intro b hb; simp [utf8Encode] at hb
  | cons c cs ih =>
    intro b hb
    have hlt := char_toNat_lt c
    rcases List.mem_append.mp hb with h | h
    · simp only [utf8EncodeChar, List.mem_cons, List.not_mem_nil, or_false] at h
      rcases h with rfl | rfl | rfl <;> omega
    · exact ih b h

theorem lebDec_enc (n : Nat) (r : Bytes) : lebDec (lebEnc n ++ r) = some (n, r) := by
  induction n using lebEnc.induct with
  | case1 n hlt =>
    rw [lebEnc, if_pos hlt, List.cons_append, List.nil_append, lebDec, if_pos hlt]
  | case2 n hge ih =>
    rw [lebEnc, if_neg hge, List.cons_append, lebDec, if_neg (by omega), ih]
    simp only [Option.some.injEq, Prod.mk.injEq, and_true]
    omega

theorem valid_lebEnc (n : Nat) : ValidBytes (lebEnc n) := by
  induction n using lebEnc.induct with
  | case1 n hlt => intro b hb; rw [lebEnc, if_pos hlt] at hb; simp at hb; omega
  | case2 n hge ih =>
    intro b hb
    rw [lebEnc, if_neg hge] at hb
    rcases List.mem_cons.mp hb with h | h
    · omega
    · exact ih b h

theorem take_len_append (a b : Bytes) : (a ++ b).take a.length = a := by
  induction a with
  | nil => simp
  | cons x xs ih => simp [ih]

theorem drop_len_append (a b : Bytes) : (a ++ b).drop a.length = b := by
  induction a with
  | nil => simp
  | cons x xs ih => simp [ih]

theorem blockDec_enc (l r : Bytes) : blockDec (blockEnc l ++ r) = some (l, r) := by
  unfold blockEnc blockDec
  rw [List.append_assoc, lebDec_enc]
  simp [take_len_append, drop_len_append]

theorem valid_blockEnc {l : Bytes} (h : ValidBytes l) : ValidBytes (blockEnc l) := by
  intro b hb
  rcases List.mem_append.mp hb with h1 | h1
  · exact valid_lebEnc _ b h1
  · exact h b h1

theorem intDec_enc (i : Int) (r : Bytes) : intDec (intEnc i ++ r) = some (i, r) := by
  by_cases hneg : i < 0
  · simp only [intEnc, if_pos hneg, List.cons_append, intDec, lebDec_enc]
    simp only [if_true, Option.some.injEq, Prod.mk.injEq, and_true]
    omega
  · simp only [intEnc, if_neg hneg, List.cons_append, intDec, lebDec_enc]
    simp only [if_true, if_false, Option.some.injEq, Prod.mk.injEq, and_true,
      show ((0 : Nat) = 1) = False by simp]
    omega

theorem valid_intEnc (i : Int) : ValidBytes (intEnc i) := by
  intro b hb
  unfold intEnc at hb
  rcases List.mem_cons.mp hb with h | h
  · split at h <;> omega
  · exact valid_lebEnc _ b h

theorem strBlockDec_enc (s : Str) (r : Bytes) :
    strBlockDec (strBlockEnc s ++ r) = some (s, r) := by
  unfold strBlockEnc strBlockDec
  rw [blockDec_enc]
  simp [utf8Decode_encode]

theorem valid_strBlockEnc (s : Str) : ValidBytes (strBlockEnc s) :=
  valid_blockEnc (valid_utf8Encode s)

theorem optDec_enc {α : Type} (f : α → Bytes) (g : Bytes → Option (α × Bytes))
    (hfg : ∀ x r, g (f x ++ r) = some (x, r)) (o : Option α) (r : Bytes) :
    optDec g (optEnc f o ++ r) = some (o, r) := by
  cases o with
  | none => simp [optEnc, optDec]
  | some x =>
    have h1 : (1 : Nat) ≠ 0 := by norm_num
    simp only [optEnc, List.cons_append, optDec, if_neg h1, if_pos rfl,
      hfg x r, Option.map_some']
    simp

theorem valid_optEnc {α : Type} (f : α → Bytes) (hf : ∀ x, ValidBytes (f x))
    (o : Option α) : ValidBytes (optEnc f o) := by
  cases o with
  | none => intro b hb; simp [optEnc] at hb; omega
  | some x =>
    intro b hb
    rcases List.mem_cons.mp hb with h | h
    · omega
    · exact hf x b h

theorem sextets_roundtrip {bs : Bytes} (h : ValidBytes bs) :
    sextetsToBytes (bytesToSextets bs) = bs := by
  induction bs using bytesToSextets.induct with
  | case1 => rfl
  | case2 a =>
    have ha := h a (by simp)
    rw [bytesToSextets, sextetsToBytes]
    simp only [List.cons.injEq, and_true]
    omega
  | case3 a b =>
    have ha := h a (by simp)
    have hb := h b (by simp)
    rw [bytesToSextets, sextetsToBytes]
    simp only [List.cons.injEq, and_true]
    constructor <;> omega
  | case4 a b c rest ih =>
    have ha := h a (by simp)
    have hb := h b (by simp)
    have hc := h c (by simp)
    have hrest : ValidBytes rest := fun x hx => h x (by simp [hx])
    rw [bytesToSextets]
    rcases hr : bytesToSextets rest with _ | ⟨x, xs⟩
    · have : sextetsToBytes (bytesToSextets rest) = rest := ih hrest
      rw [hr] at this
      rw [sextetsToBytes]
      simp only [List.cons.injEq]
      refine ⟨by omega, by omega, by omega, this⟩
    · have hrt : sextetsToBytes (bytesToSextets rest) = rest := ih hrest
      rw [hr] at hrt
      rw [sextetsToBytes, hrt]
      simp only [List.cons.injEq, and_true]
      refine ⟨by omega, by omega, by omega⟩

theorem sextets_lt {bs : Bytes} (h : ValidBytes bs) :
    ∀ x ∈ bytesToSextets bs, x < 64 := by
  induction bs using bytesToSextets.induct with
  | case1 => intro x hx; simp [bytesToSextets] at hx
  | case2 a =>
    have ha := h a (by simp)
    intro x hx
    rw [bytesToSextets] at hx
    simp only [List.mem_cons, List.not_mem_nil, or_false] at hx
    rcases hx with rfl | rfl <;> omega
  | case3 a b =>
    have ha := h a (by simp)
    have hb := h b (by simp)
    intro x hx
    rw [bytesToSextets] at hx
    simp only [List.mem_cons, List.not_mem_nil, or_false] at hx
    rcases hx with rfl | rfl | rfl <;> omega
  | case4 a b c rest ih =>
    have ha := h a (by simp)
    have hb := h b (by simp)
    have hc := h c (by simp)
    have hrest : ValidBytes rest := fun x hx => h x (by simp [hx])
    intro x hx
    rw [bytesToSextets] at hx
    simp only [List.mem_cons] at hx
    rcases hx with rfl | rfl | rfl | rfl | hx
    · omega
    · omega
    · omega
    · omega
    · exact ih hrest x hx

theorem sextets_len_mod (bs : Bytes) :
    (bytesToSextets bs).length % 4 = 0 ∨ (bytesToSextets bs).length % 4 = 2 ∨
    (bytesToSextets bs).length % 4 = 3 := by
  induction bs using bytesToSextets.induct with
  | case1 => left; rfl
  | case2 a => right; left; rfl
  | case3 a b => right; right; rfl
  | case4 a b c rest ih =>
    rw [bytesToSextets]
    simp only [List.length_cons]
    rcases ih with h | h | h
    · left; omega
    · right; left; omega
    · right; right; omega

theorem urlToStd_url : ∀ n, n < 64 →
    (if urlB64Char n = Char.ofNat 45 then Char.ofNat 43
     else if urlB64Char n = Char.ofNat 95 then Char.ofNat 47
     else urlB64Char n) = stdB64Char n := by decide

theorem decStd_std : ∀ n, n < 64 → decStdB64 (stdB64Char n) = some n := by decide

theorem std_not_ws : ∀ n, n < 64 → isAsciiWs (stdB64Char n) = false := by decide

theorem std_ne_pad : ∀ n, n < 64 → stdB64Char n ≠ padChar := by decide

theorem url_ne_dot : ∀ n, n < 64 → urlB64Char n ≠ '.' := by decide

theorem url_not_jsws : ∀ n, n < 64 → isJsWs (urlB64Char n) = false := by decide

theorem pad_not_ws : isAsciiWs padChar = false := by decide

theorem mapOpt_map_std {e : Bytes} (h : ∀ x ∈ e, x < 64) :
    mapOpt decStdB64 (e.map stdB64Char) = some e := by
  induction e with
  | nil => rfl
  | cons x xs ih =>
    rw [List.map_cons, mapOpt, decStd_std x (h x (by simp)),
      ih fun y hy => h y (by simp [hy])]

theorem dropTrailingEq_append2 (x : Str) :
    dropTrailingEq (x ++ [padChar, padChar]) = x := by
  unfold dropTrailingEq
  rw [show x ++ [padChar, padChar] = (x ++ [padChar]) ++ [padChar] by simp,
    List.reverse_append, List.reverse_append]
  simp

theorem dropTrailingEq_append1 {x : Str} (hne : x ≠ [])
    (h : ∀ c ∈ x, c ≠ padChar) : dropTrailingEq (x ++ [padChar]) = x := by
  unfold dropTrailingEq
  rw [List.reverse_append]
  rcases hx : x.reverse with _ | ⟨c2, r⟩
  · exact absurd (by simpa using congrArg List.reverse hx) hne
  · have hc2 : c2 ≠ padChar := h c2 (List.mem_reverse.mp (by rw [hx]; simp))
    have hx2 : r.reverse ++ [c2] = x := by
      have := congrArg List.reverse hx
      simpa using this.symm
    simp [hc2, hx2]

theorem dropTrailingEq_no_pad {x : Str} (h : ∀ c ∈ x, c ≠ padChar) :
    dropTrailingEq x = x := by
  unfold dropTrailingEq
  rcases hx : x.reverse with _ | ⟨c1, r2⟩
  · rfl
  · have hc1 : c1 ≠ padChar := h c1 (List.mem_reverse.mp (by rw [hx]; simp))
    rcases r2 with _ | ⟨c2, r⟩
    · simp [hc1]
    · simp [hc1]

theorem atobStrip_std_padded (e : Bytes) (he : ∀ x ∈ e, x < 64) (k : Nat) :
    atobStrip (e.map stdB64Char ++ List.replicate k padChar)
      = e.map stdB64Char ++ List.replicate k padChar := by
  unfold atobStrip
  rw [List.filter_eq_self]
  intro c hc
  rcases List.mem_append.mp hc with hcm | hcp
  · rcases List.mem_map.mp hcm with ⟨n, hn, rfl⟩
    simp [std_not_ws n (he n hn)]
  · have := List.eq_of_mem_replicate hcp
    simp [this, pad_not_ws]

theorem fromB64_toB64 {bs : Bytes} (h : ValidBytes bs) :
    fromB64Url (toB64Url bs) = some bs := by
  have he64 := sextets_lt h
  have hrt := sextets_roundtrip h
  have hnopad : ∀ c ∈ (bytesToSextets bs).map stdB64Char, c ≠ padChar := by
    intro c hc
    rcases List.mem_map.mp hc with ⟨n, hn, rfl⟩
    exact std_ne_pad n (he64 n hn)
  have hmap : (toB64Url bs).map
      (fun c => if c = Char.ofNat 45 then Char.ofNat 43
                else if c = Char.ofNat 95 then Char.ofNat 47 else c)
      = (bytesToSextets bs).map stdB64Char := by
    unfold toB64Url
    rw [List.map_map]
    exact List.map_congr_left fun x hx => urlToStd_url x (he64 x hx)
  have hlen : (toB64Url bs).length = (bytesToSextets bs).length :=
    List.length_map _ _
  unfold fromB64Url
  rw [hmap, hlen]
  have hmapdec := mapOpt_map_std he64
  rcases sextets_len_mod bs with hm | hm | hm
  · have hpad : padFor (bytesToSextets bs).length = [] := by
      unfold padFor
      rw [show ((bytesToSextets bs).length + 3) % 4 = 3 by omega]
      rfl
    rw [hpad, List.append_nil]
    have hstrip := atobStrip_std_padded (bytesToSextets bs) he64 0
    simp only [List.replicate_zero, List.append_nil] at hstrip
    have hunpad : atobUnpad (atobStrip ((bytesToSextets bs).map stdB64Char))
        = (bytesToSextets bs).map stdB64Char := by
      rw [hstrip]
      unfold atobUnpad
      rw [if_pos (by rw [List.length_map]; omega), dropTrailingEq_no_pad hnopad]
    unfold atobModel
    rw [hunpad, if_neg (by rw [List.length_map]; omega), hmapdec]
    simp [hrt]
  · have hpad : padFor (bytesToSextets bs).length = [padChar, padChar] := by
      unfold padFor
      rw [show ((bytesToSextets bs).length + 3) % 4 = 1 by omega]
      rfl
    rw [hpad]
    have hstrip := atobStrip_std_padded (bytesToSextets bs) he64 2
    have hrep2 : List.replicate 2 padChar = [padChar, padChar] := rfl
    rw [hrep2] at hstrip
    have hunpad : atobUnpad (atobStrip ((bytesToSextets bs).map stdB64Char
        ++ [padChar, padChar])) = (bytesToSextets bs).map stdB64Char := by
      rw [hstrip]
      unfold atobUnpad
      rw [if_pos (by simp only [List.length_append, List.length_map,
        List.length_cons, List.length_nil]; omega), dropTrailingEq_append2]
    unfold atobModel
    rw [hunpad, if_neg (by rw [List.length_map]; omega), hmapdec]
    simp [hrt]
  · have hpad : padFor (bytesToSextets bs).length = [padChar] := by
      unfold padFor
      rw [show ((bytesToSextets bs).length + 3) % 4 = 2 by omega]
      rfl
    rw [hpad]
    have hstrip := atobStrip_std_padded (bytesToSextets bs) he64 1
    have hrep1 : List.replicate 1 padChar = [padChar] := rfl
    rw [hrep1] at hstrip
    have hne : (bytesToSextets bs).map stdB64Char ≠ [] := by
      intro hnil
      have := congrArg List.length hnil
      simp only [List.length_map, List.length_nil] at this
      omega
    have hunpad : atobUnpad (atobStrip ((bytesToSextets bs).map stdB64Char
        ++ [padChar])) = (bytesToSextets bs).map stdB64Char := by
      rw [hstrip]
      unfold atobUnpad
      rw [if_pos (by simp only [List.length_append, List.length_map,
        List.length_cons, List.length_nil]; omega), dropTrailingEq_append1 hne hnopad]
    unfold atobModel
    rw [hunpad, if_neg (by rw [List.length_map]; omega), hmapdec]
    simp [hrt]

theorem intDec_enc_nil (i : Int) : intDec (intEnc i) = some (i, []) := by
  simpa using intDec_enc i []

theorem strBlockDec_enc_nil (s : Str) : strBlockDec (strBlockEnc s) = some (s, []) := by
  simpa using strBlockDec_enc s []

theorem optStrDec_enc (o : Option Str) (r : Bytes) :
    optDec strBlockDec (optEnc strBlockEnc o ++ r) = some (o, r) :=
  optDec_enc _ _ strBlockDec_enc o r

theorem optIntDec_enc (o : Option Int) (r : Bytes) :
    optDec intDec (optEnc intEnc o ++ r) = some (o, r) :=
  optDec_enc _ _ intDec_enc o r

theorem optStrDec_enc_nil (o : Option Str) :
    optDec strBlockDec (optEnc strBlockEnc o) = some (o, []) := by
  simpa using optStrDec_enc o []

theorem headerFromBytes_toBytes (h : PascoHeader) :
    headerFromBytes (headerToBytes h) = some h := by
  rcases h with ⟨v, alg, kdf, iter, salt, iv, createdAt, kind, filename, mime, size, note⟩
  simp only [headerToBytes, List.append_assoc]
  simp only [headerFromBytes, intDec_enc, strBlockDec_enc, optStrDec_enc,
    optIntDec_enc, optStrDec_enc_nil]
  simp

theorem valid_append {a b : Bytes} (ha : ValidBytes a) (hb : ValidBytes b) :
    ValidBytes (a ++ b) := by
  intro x hx
  rcases List.mem_append.mp hx with h | h
  · exact ha x h
  · exact hb x h

theorem valid_headerToBytes (h : PascoHeader) : ValidBytes (headerToBytes h) := by
  have hassoc : headerToBytes h
      = intEnc h.v ++ (strBlockEnc h.alg ++ (strBlockEnc h.kdf ++ (intEnc h.iter ++
        (strBlockEnc h.salt ++ (strBlockEnc h.iv ++ (strBlockEnc h.createdAt ++
        (strBlockEnc h.kind ++ (optEnc strBlockEnc h.filename ++
        (optEnc strBlockEnc h.mime ++ (optEnc intEnc h.size ++
        optEnc strBlockEnc h.note)))))))))) := by
    simp [headerToBytes, List.append_assoc]
  rw [hassoc]
  refine valid_append (valid_intEnc _) (valid_append (valid_strBlockEnc _)
    (valid_append (valid_strBlockEnc _) (valid_append (valid_intEnc _)
    (valid_append (valid_strBlockEnc _) (valid_append (valid_strBlockEnc _)
    (valid_append (valid_strBlockEnc _) (valid_append (valid_strBlockEnc _)
    (valid_append (valid_optEnc _ valid_strBlockEnc _)
    (valid_append (valid_optEnc _ valid_strBlockEnc _)
    (valid_append (valid_optEnc _ valid_intEnc _)
    (valid_optEnc _ valid_strBlockEnc _)))))))))))

theorem aesGcmDecrypt_enc (key : SymKey) (iv pt : Bytes) :
    aesGcmDecrypt key iv (aesGcmEncrypt key iv pt) = some pt := by
  unfold aesGcmEncrypt aesGcmDecrypt
  simp [blockDec_enc, intDec_enc]

theorem aesGcmDecrypt_wrong {key key2 : SymKey} (iv pt : Bytes) (h : key2 ≠ key) :
    aesGcmDecrypt key2 iv (aesGcmEncrypt key iv pt) = none := by
  unfold aesGcmEncrypt aesGcmDecrypt
  simp only [blockDec_enc, intDec_enc]
  rw [if_neg]
  rintro ⟨h1, h2, h3, -⟩
  refine h ?_
  obtain ⟨pw, salt, it⟩ := key
  obtain ⟨pw2, salt2, it2⟩ := key2
  simp_all

theorem valid_aesGcmEncrypt (password : Str) {salt iv pt : Bytes} (iters : Int)
    (hsalt : ValidBytes salt) (hiv : ValidBytes iv) (hpt : ValidBytes pt) :
    ValidBytes (aesGcmEncrypt (deriveKey password salt iters) iv pt) := by
  unfold aesGcmEncrypt deriveKey
  exact valid_append (valid_blockEnc (valid_utf8Encode _))
    (valid_append (valid_blockEnc hsalt)
      (valid_append (valid_intEnc _) (valid_append (valid_blockEnc hiv) hpt)))

/-- The magic segment `"PASCO1"` as it appears in the split token. -/
def magicSeg : Str := ['P', 'A', 'S', 'C', 'O', '1']

theorem toB64Url_chars {bs : Bytes} (h : ValidBytes bs) :
    ∀ c ∈ toB64Url bs, c ≠ '.' ∧ isJsWs c = false := by
  intro c hc
  rcases List.mem_map.mp hc with ⟨n, hn, rfl⟩
  exact ⟨url_ne_dot n (sextets_lt h n hn), url_not_jsws n (sextets_lt h n hn)⟩

theorem magicStr_no_ws : ∀ c ∈ magicStr, isJsWs c = false := by decide

theorem magicSeg_no_dot : ∀ c ∈ magicSeg, c ≠ '.' := by decide

theorem tokenOf_split_form (h : PascoHeader) (ct : Bytes) :
    tokenOf h ct = magicSeg ++ '.' :: (packHeader h ++ '.' :: toB64Url ct) := by
  simp [tokenOf, magicStr, magicSeg]

theorem trim_tokenOf (h : PascoHeader) (ct : Bytes) (hct : ValidBytes ct) :
    trim (tokenOf h ct) = tokenOf h ct := by
  refine trim_no_ws fun c hc => ?_
  unfold tokenOf at hc
  rcases List.mem_append.mp hc with hc1 | hc2
  · rcases List.mem_append.mp hc1 with hm | hp
    · exact magicStr_no_ws c hm
    · exact (toB64Url_chars (valid_headerToBytes h) c hp).2
  · rcases List.mem_cons.mp hc2 with rfl | hc3
    · decide
    · exact (toB64Url_chars hct c hc3).2

theorem startsWith_tokenOf (h : PascoHeader) (ct : Bytes) :
    startsWith magicStr (tokenOf h ct) = true := by
  have : tokenOf h ct = magicStr ++ (packHeader h ++ '.' :: toB64Url ct) := by
    simp [tokenOf]
  rw [this]
  exact startsWith_append _ _

theorem packHeader_no_dot (h : PascoHeader) : ∀ c ∈ packHeader h, c ≠ '.' :=
  fun c hc => (toB64Url_chars (valid_headerToBytes h) c hc).1

theorem split_tokenOf (h : PascoHeader) (ct : Bytes) (hct : ValidBytes ct) :
    splitOnDot (tokenOf h ct) = [magicSeg, packHeader h, toB64Url ct] := by
  rw [tokenOf_split_form,
    splitOnDot_append_dot _ magicSeg_no_dot,
    splitOnDot_append_dot _ (packHeader_no_dot h),
    splitOnDot_no_dot (fun c hc => (toB64Url_chars hct c hc).1)]

theorem unpack_pack (h : PascoHeader) : unpackHeader (packHeader h) = some h := by
  unfold unpackHeader packHeader
  rw [fromB64_toB64 (valid_headerToBytes h)]
  simp [headerFromBytes_toBytes]

theorem decryptTokenT_tokenOf (hdr : PascoHeader) (ct : Bytes) (pw : Str)
    (hct : ValidBytes ct)
    (hv : hdr.v = 1) (halg : hdr.alg = algStr) (hkdf : hdr.kdf = kdfStr)
    {salt iv : Bytes}
    (hsalt : fromB64Url hdr.salt = some salt) (hiv : fromB64Url hdr.iv = some iv) :
    decryptTokenT (tokenOf hdr ct) pw =
      match aesGcmDecrypt (deriveKey pw salt hdr.iter) iv ct with
      | none => (.error .auth, [CryptoOp.deriveKeyOp, CryptoOp.aeadDecryptOp])
      | some ptBytes =>
        if hdr.kind = textKind then
          (.ok (.text hdr (utf8Decode ptBytes) (sha256Hex ct)),
           [CryptoOp.deriveKeyOp, CryptoOp.aeadDecryptOp, CryptoOp.hashOp])
        else
          (.ok (.file hdr ptBytes (sha256Hex ct)),
           [CryptoOp.deriveKeyOp, CryptoOp.aeadDecryptOp, CryptoOp.hashOp]) := by
  unfold decryptTokenT
  rw [trim_tokenOf hdr ct hct]
  unfold decryptTokenBody
  rw [if_pos (startsWith_tokenOf hdr ct), split_tokenOf hdr ct hct]
  simp only [unpack_pack, hv, halg, hkdf, hsalt, hiv, fromB64_toB64 hct,
    ne_eq, not_true_eq_false, if_false, ite_false]

theorem decryptTokenT_cases (t p : Str) :
    ((decryptTokenT t p).2 = [] ∧
      ∃ e, (decryptTokenT t p).1 = Except.error e ∧ e ≠ DecErr.auth) ∨
    (∃ s0 s1 s2 hdr salt iv ct,
      startsWith magicStr (trim t) = true ∧
      splitOnDot (trim t) = [s0, s1, s2] ∧
      unpackHeader s1 = some hdr ∧ hdr.v = 1 ∧ hdr.alg = algStr ∧
      hdr.kdf = kdfStr ∧
      fromB64Url hdr.salt = some salt ∧ fromB64Url hdr.iv = some iv ∧
      fromB64Url s2 = some ct ∧
      ((aesGcmDecrypt (deriveKey p salt hdr.iter) iv ct = none ∧
        decryptTokenT t p = (Except.error DecErr.auth,
          [CryptoOp.deriveKeyOp, CryptoOp.aeadDecryptOp])) ∨
       (∃ pt, aesGcmDecrypt (deriveKey p salt hdr.iter) iv ct = some pt ∧
        ((hdr.kind = textKind ∧ decryptTokenT t p =
            (Except.ok (DecryptResult.text hdr (utf8Decode pt) (sha256Hex ct)),
             [CryptoOp.deriveKeyOp, CryptoOp.aeadDecryptOp, CryptoOp.hashOp])) ∨
         (hdr.kind ≠ textKind ∧ decryptTokenT t p =
            (Except.ok (DecryptResult.file hdr pt (sha256Hex ct)),
             [CryptoOp.deriveKeyOp, CryptoOp.aeadDecryptOp, CryptoOp.hashOp])))))) := by
  cases hsw : startsWith magicStr (trim t) with
  | false =>
    left
    have he : decryptTokenT t p = (Except.error DecErr.badMagic, []) := by
      unfold decryptTokenT decryptTokenBody
      rw [hsw]
      rfl
    rw [he]
    exact ⟨rfl, DecErr.badMagic, rfl, by simp⟩
  | true =>
    rcases hsp : splitOnDot (trim t) with _ | ⟨s0, r0⟩
    · exact absurd hsp (splitOnDot_ne_nil _)
    rcases r0 with _ | ⟨s1, r1⟩
    · left
      have he : decryptTokenT t p = (Except.error DecErr.badSegments, []) := by
        unfold decryptTokenT decryptTokenBody
        rw [hsw, hsp]
        rfl
      rw [he]
      exact ⟨rfl, DecErr.badSegments, rfl, by simp⟩
    rcases r1 with _ | ⟨s2, r2⟩
    · left
      have he : decryptTokenT t p = (Except.error DecErr.badSegments, []) := by
        unfold decryptTokenT decryptTokenBody
        rw [hsw, hsp]
        rfl
      rw [he]
      exact ⟨rfl, DecErr.badSegments, rfl, by simp⟩
    rcases r2 with _ | ⟨s3, r3⟩
    swap
    · left
      have he : decryptTokenT t p = (Except.error DecErr.badSegments, []) := by
        unfold decryptTokenT decryptTokenBody
        rw [hsw, hsp]
        rfl
      rw [he]
      exact ⟨rfl, DecErr.badSegments, rfl, by simp⟩
    rcases hup : unpackHeader s1 with _ | hdr
    · left
      have he : decryptTokenT t p = (Except.error DecErr.badHeader, []) := by
        unfold decryptTokenT decryptTokenBody
        rw [hsw, hsp]
        show (match unpackHeader s1 with
          | none => (Except.error DecErr.badHeader, [])
          | some header => _) = _
        rw [hup]
      rw [he]
      exact ⟨rfl, DecErr.badHeader, rfl, by simp⟩
    by_cases hv : hdr.v = 1
    swap
    · left
      have he : decryptTokenT t p = (Except.error DecErr.badVersion, []) := by
        unfold decryptTokenT decryptTokenBody
        rw [hsw, hsp]
        show (match unpackHeader s1 with
          | none => (Except.error DecErr.badHeader, [])
          | some header => _) = _
        rw [hup]
        show (if hdr.v ≠ 1 then (Except.error DecErr.badVersion, ([] : List CryptoOp))
          else _) = _
        rw [if_pos hv]
      rw [he]
      exact ⟨rfl, DecErr.badVersion, rfl, by simp⟩
    by_cases halg : hdr.alg = algStr
    swap
    · left
      have he : decryptTokenT t p = (Except.error DecErr.badAlg, []) := by
        unfold decryptTokenT decryptTokenBody
        rw [hsw, hsp]
        show (match unpackHeader s1 with
          | none => (Except.error DecErr.badHeader, [])
          | some header => _) = _
        rw [hup]
        show (if hdr.v ≠ 1 then (Except.error DecErr.badVersion, ([] : List CryptoOp))
          else if hdr.alg ≠ algStr then (Except.error DecErr.badAlg, [])
          else _) = _
        rw [if_neg (by simp [hv]), if_pos halg]
      rw [he]
      exact ⟨rfl, DecErr.badAlg, rfl, by simp⟩
    by_cases hkdf : hdr.kdf = kdfStr
    swap
    · left
      have he : decryptTokenT t p = (Except.error DecErr.badKdf, []) := by
        unfold decryptTokenT decryptTokenBody
        rw [hsw, hsp]
        show (match unpackHeader s1 with
          | none => (Except.error DecErr.badHeader, [])
          | some header => _) = _
        rw [hup]
        show (if hdr.v ≠ 1 then (Except.error DecErr.badVersion, ([] : List CryptoOp))
          else if hdr.alg ≠ algStr then (Except.error DecErr.badAlg, [])
          else if hdr.kdf ≠ kdfStr then (Except.error DecErr.badKdf, [])
          else _) = _
        rw [if_neg (by simp [hv]), if_neg (by simp [halg]), if_pos hkdf]
      rw [he]
      exact ⟨rfl, DecErr.badKdf, rfl, by simp⟩
    have hbody : decryptTokenT t p =
        (match fromB64Url hdr.salt with
         | none => (Except.error DecErr.badSaltB64, [])
         | some salt =>
           match fromB64Url hdr.iv with
           | none => (Except.error DecErr.badIvB64, [])
           | some iv =>
             match fromB64Url s2 with
             | none => (Except.error DecErr.badCtB64, [])
             | some ctBytes =>
               match aesGcmDecrypt (deriveKey p salt hdr.iter) iv ctBytes with
               | none => (Except.error DecErr.auth,
                   [CryptoOp.deriveKeyOp, CryptoOp.aeadDecryptOp])
               | some ptBytes =>
                 if hdr.kind = textKind then
                   (Except.ok (DecryptResult.text hdr (utf8Decode ptBytes) (sha256Hex ctBytes)),
                    [CryptoOp.deriveKeyOp, CryptoOp.aeadDecryptOp, CryptoOp.hashOp])
                 else
                   (Except.ok (DecryptResult.file hdr ptBytes (sha256Hex ctBytes)),
                    [CryptoOp.deriveKeyOp, CryptoOp.aeadDecryptOp, CryptoOp.hashOp])) := by
      unfold decryptTokenT decryptTokenBody
      rw [hsw, hsp]
      show (match unpackHeader s1 with
        | none => (Except.error DecErr.badHeader, [])
        | some header => _) = _
      rw [hup]
      show (if hdr.v ≠ 1 then (Except.error DecErr.badVersion, ([] : List CryptoOp))
        else if hdr.alg ≠ algStr then (Except.error DecErr.badAlg, [])
        else if hdr.kdf ≠ kdfStr then (Except.error DecErr.badKdf, [])
        else _) = _
      rw [if_neg (by simp [hv]), if_neg (by simp [halg]), if_neg (by simp [hkdf])]
    rcases hsalt : fromB64Url hdr.salt with _ | salt
    · left
      rw [hbody, hsalt]
      exact ⟨rfl, DecErr.badSaltB64, rfl, by simp⟩
    rcases hivb : fromB64Url hdr.iv with _ | iv
    · left
      rw [hbody, hsalt, hivb]
      exact ⟨rfl, DecErr.badIvB64, rfl, by simp⟩
    rcases hctb : fromB64Url s2 with _ | ct
    · left
      rw [hbody, hsalt, hivb, hctb]
      exact ⟨rfl, DecErr.badCtB64, rfl, by simp⟩
    rcases hdec : aesGcmDecrypt (deriveKey p salt hdr.iter) iv ct with _ | pt
    · right
      refine ⟨s0, s1, s2, hdr, salt, iv, ct, rfl, rfl, hup, hv, halg, hkdf,
        hsalt, hivb, hctb, Or.inl ⟨hdec, ?_⟩⟩
      rw [hbody]
      simp only [hsalt, hivb, hctb, hdec]
    by_cases hk : hdr.kind = textKind
    · right
      refine ⟨s0, s1, s2, hdr, salt, iv, ct, rfl, rfl, hup, hv, halg, hkdf,
        hsalt, hivb, hctb, Or.inr ⟨pt, hdec, Or.inl ⟨hk, ?_⟩⟩⟩
      rw [hbody]
      simp only [hsalt, hivb, hctb, hdec, hk, if_pos]
    · right
      refine ⟨s0, s1, s2, hdr, salt, iv, ct, rfl, rfl, hup, hv, halg, hkdf,
        hsalt, hivb, hctb, Or.inr ⟨pt, hdec, Or.inr ⟨hk, ?_⟩⟩⟩
      rw [hbody]
      simp only [hsalt, hivb, hctb, hdec, hk, if_false, ite_false]

theorem decryptTokenT_trim (t p : Str) :
    decryptTokenT (trim t) p = decryptTokenT t p := by
  unfold decryptTokenT
  rw [trim_idem]

theorem fingerprintFromTokenT_trim (t : Str) :
    fingerprintFromTokenT (trim t) = fingerprintFromTokenT t := by
  unfold fingerprintFromTokenT
  rw [trim_idem]

theorem trim_ne_nil_of_sw {t : Str}
    (hsw : startsWith magicStr (trim t) = true) : trim t ≠ [] := by
  intro hnil
  rw [hnil] at hsw
  exact absurd hsw (by decide)

theorem fingerprintT_of_parts {t : Str} {s0 s1 s2 : Str} {ct : Bytes}
    (hsw : startsWith magicStr (trim t) = true)
    (hsp : splitOnDot (trim t) = [s0, s1, s2])
    (hct : fromB64Url s2 = some ct) :
    fingerprintFromTokenT t = (Except.ok (sha256Hex ct), [CryptoOp.hashOp]) := by
  unfold fingerprintFromTokenT fingerprintBody
  rw [if_pos hsw, hsp]
  simp only [hct]

theorem decrypt_ok_full {t p : Str} {r : DecryptResult}
    (h : decryptToken t p = Except.ok r) :
    decryptTokenT t p =
      (Except.ok r, [CryptoOp.deriveKeyOp, CryptoOp.aeadDecryptOp, CryptoOp.hashOp]) ∧
    trim t ≠ [] ∧
    ∃ s0 s1 s2 ct, startsWith magicStr (trim t) = true ∧
      splitOnDot (trim t) = [s0, s1, s2] ∧ fromB64Url s2 = some ct ∧
      r.fingerprint = sha256Hex ct ∧
      fingerprintFromTokenT t = (Except.ok (sha256Hex ct), [CryptoOp.hashOp]) := by
  unfold decryptToken at h
  rcases decryptTokenT_cases t p with ⟨-, e, he, -⟩ |
    ⟨s0, s1, s2, hdr, salt, iv, ct, hsw, hsp, hup, hv, halg, hkdf,
      hsalt, hivb, hctb, hrest⟩
  · rw [he] at h
    exact absurd h (by simp)
  · rcases hrest with ⟨hdec, heq⟩ | ⟨pt, hdec, ⟨hk, heq⟩ | ⟨hk, heq⟩⟩
    · rw [heq] at h
      exact absurd h (by simp)
    · rw [heq] at h
      simp only [Except.ok.injEq] at h
      subst h
      exact ⟨heq, trim_ne_nil_of_sw hsw,
        s0, s1, s2, ct, hsw, hsp, hctb, rfl, fingerprintT_of_parts hsw hsp hctb⟩
    · rw [heq] at h
      simp only [Except.ok.injEq] at h
      subst h
      exact ⟨heq, trim_ne_nil_of_sw hsw,
        s0, s1, s2, ct, hsw, hsp, hctb, rfl, fingerprintT_of_parts hsw hsp hctb⟩

theorem decrypt_auth_full {t p : Str}
    (h : decryptToken t p = Except.error DecErr.auth) :
    decryptTokenT t p =
      (Except.error DecErr.auth, [CryptoOp.deriveKeyOp, CryptoOp.aeadDecryptOp]) ∧
    trim t ≠ [] ∧
    ∃ ct, fingerprintFromTokenT t = (Except.ok (sha256Hex ct), [CryptoOp.hashOp]) := by
  unfold decryptToken at h
  rcases decryptTokenT_cases t p with ⟨-, e, he, hne⟩ |
    ⟨s0, s1, s2, hdr, salt, iv, ct, hsw, hsp, hup, hv, halg, hkdf,
      hsalt, hivb, hctb, hrest⟩
  · rw [he] at h
    simp only [Except.error.injEq] at h
    exact absurd h hne
  · rcases hrest with ⟨hdec, heq⟩ | ⟨pt, hdec, ⟨hk, heq⟩ | ⟨hk, heq⟩⟩
    · exact ⟨heq, trim_ne_nil_of_sw hsw,
        ct, fingerprintT_of_parts hsw hsp hctb⟩
    · rw [heq] at h
      exact absurd h (by simp)
    · rw [heq] at h
      exact absurd h (by simp)

theorem get_set_same (m : AttemptsMap) (fp : Str) (n : Nat) :
    getAttempts (setAttempts m fp n) fp = n := by
  induction m with
  | nil => simp [setAttempts, getAttempts]
  | cons kv rest ih =>
    obtain ⟨k, v⟩ := kv
    by_cases hk : k = fp
    · simp [setAttempts, getAttempts, hk]
    · simp [setAttempts, getAttempts, hk, ih]

theorem runDecrypt_ok_locked {m : AttemptsMap} {tok pw : Str} {r : DecryptResult}
    (h : decryptToken tok pw = Except.ok r)
    (hge : getAttempts m r.fingerprint ≥ maxAttempts)
    (hpw : trim pw ≠ []) :
    runDecrypt m tok pw = ⟨.locked r.fingerprint, m,
      [CryptoOp.deriveKeyOp, CryptoOp.aeadDecryptOp, CryptoOp.hashOp]⟩ := by
  obtain ⟨hT, htok, -⟩ := decrypt_ok_full h
  simp only [runDecrypt, if_neg htok, if_neg hpw, decryptTokenT_trim, hT, hge,
    if_pos, ge_iff_le]

theorem runDecrypt_ok_success {m : AttemptsMap} {tok pw : Str} {r : DecryptResult}
    (h : decryptToken tok pw = Except.ok r)
    (hlt : getAttempts m r.fingerprint < maxAttempts)
    (hpw : trim pw ≠ []) :
    runDecrypt m tok pw = ⟨.success r, setAttempts m r.fingerprint 0,
      [CryptoOp.deriveKeyOp, CryptoOp.aeadDecryptOp, CryptoOp.hashOp]⟩ := by
  obtain ⟨hT, htok, -⟩ := decrypt_ok_full h
  simp only [runDecrypt, if_neg htok, if_neg hpw, decryptTokenT_trim, hT,
    if_neg (not_le.mpr hlt), ge_iff_le]

theorem runDecrypt_err_fp {m : AttemptsMap} {tok pw : Str} {e : DecErr}
    {fp : Str} {ops ops2 : List CryptoOp}
    (hT : decryptTokenT tok pw = (Except.error e, ops))
    (hfp : fingerprintFromTokenT tok = (Except.ok fp, ops2))
    (htok : trim tok ≠ []) (hpw : trim pw ≠ []) :
    runDecrypt m tok pw =
      ⟨if max 0 ((maxAttempts : Int) - ((getAttempts m fp + 1 : Nat) : Int)) ≤ 0
        then .wrongKeyLocked fp
        else .wrongKeyLeft fp
          (max 0 ((maxAttempts : Int) - ((getAttempts m fp + 1 : Nat) : Int))),
       setAttempts m fp (getAttempts m fp + 1), ops ++ ops2⟩ := by
  simp only [runDecrypt, if_neg htok, if_neg hpw, decryptTokenT_trim,
    fingerprintFromTokenT_trim, hT, hfp]
  split <;> rfl

theorem runDecrypt_err_fp_attempts {m : AttemptsMap} {tok pw : Str} {e : DecErr}
    {fp : Str} {ops ops2 : List CryptoOp}
    (hT : decryptTokenT tok pw = (Except.error e, ops))
    (hfp : fingerprintFromTokenT tok = (Except.ok fp, ops2))
    (htok : trim tok ≠ []) (hpw : trim pw ≠ []) :
    (runDecrypt m tok pw).attempts = setAttempts m fp (getAttempts m fp + 1) := by
  rw [runDecrypt_err_fp hT hfp htok hpw]

theorem runDecrypt_err_fp_locked {m : AttemptsMap} {tok pw : Str} {e : DecErr}
    {fp : Str} {ops ops2 : List CryptoOp}
    (hT : decryptTokenT tok pw = (Except.error e, ops))
    (hfp : fingerprintFromTokenT tok = (Except.ok fp, ops2))
    (htok : trim tok ≠ []) (hpw : trim pw ≠ [])
    (hge : getAttempts m fp ≥ 4) :
    runDecrypt m tok pw =
      ⟨.wrongKeyLocked fp, setAttempts m fp (getAttempts m fp + 1), ops ++ ops2⟩ := by
  rw [runDecrypt_err_fp hT hfp htok hpw]
  have hcond : max 0 ((maxAttempts : Int) - ((getAttempts m fp + 1 : Nat) : Int)) ≤ 0 := by
    simp only [maxAttempts]
    omega
  rw [if_pos hcond]

theorem runDecrypt_err_nofp {m : AttemptsMap} {tok pw : Str} {e e2 : DecErr}
    {ops ops2 : List CryptoOp}
    (hT : decryptTokenT tok pw = (Except.error e, ops))
    (hfp : fingerprintFromTokenT tok = (Except.error e2, ops2))
    (htok : trim tok ≠ []) (hpw : trim pw ≠ []) :
    runDecrypt m tok pw = ⟨.failedOther e, m, ops ++ ops2⟩ := by
  simp only [runDecrypt, if_neg htok, if_neg hpw, decryptTokenT_trim,
    fingerprintFromTokenT_trim, hT, hfp]

theorem runMany_nil (m : AttemptsMap) (tok : Str) : runMany m tok [] = m := rfl

theorem runMany_cons (m : AttemptsMap) (tok p : Str) (ps : List Str) :
    runMany m tok (p :: ps) = runMany (runDecrypt m tok p).attempts tok ps := rfl

theorem runMany_wrong_counter {tok fp : Str} {ops2 : List CryptoOp}
    (hfp : fingerprintFromTokenT tok = (Except.ok fp, ops2)) :
    ∀ (pws : List Str) (m : AttemptsMap),
    (∀ p ∈ pws, decryptToken tok p = Except.error DecErr.auth ∧ trim p ≠ []) →
    getAttempts (runMany m tok pws) fp = getAttempts m fp + pws.length := by
  intro pws
  induction pws with
  | nil => intro m _; simp [runMany_nil]
  | cons p ps ih =>
    intro m hall
    obtain ⟨hp, hpw⟩ := hall p (by simp)
    obtain ⟨hT, htok, -⟩ := decrypt_auth_full hp
    rw [runMany_cons,
      ih _ (fun q hq => hall q (by simp [hq])),
      runDecrypt_err_fp_attempts hT hfp htok hpw, get_set_same]
    simp only [List.length_cons]
    omega

theorem decryptToken_encryptText (text : Str) (opts : EncryptTextOptions)
    (salt iv : Bytes) (cAt : Str) (hs : ValidBytes salt) (hiv : ValidBytes iv) :
    decryptToken (encryptText text opts salt iv cAt).token opts.password
      = Except.ok (DecryptResult.text (encryptText text opts salt iv cAt).header text
          (encryptText text opts salt iv cAt).fingerprint) := by
  have hct : ValidBytes (aesGcmEncrypt (deriveKey opts.password salt
      (clampIter (opts.iterations.getD 220000))) iv (utf8Encode text)) :=
    valid_aesGcmEncrypt _ _ hs hiv (valid_utf8Encode text)
  have htok : (encryptText text opts salt iv cAt).token
      = tokenOf ⟨1, algStr, kdfStr, clampIter (opts.iterations.getD 220000),
          toB64Url salt, toB64Url iv, cAt, textKind, none, none, none,
          noteNorm opts.note⟩
        (aesGcmEncrypt (deriveKey opts.password salt
          (clampIter (opts.iterations.getD 220000))) iv (utf8Encode text)) := rfl
  have hlem := decryptTokenT_tokenOf
    (⟨1, algStr, kdfStr, clampIter (opts.iterations.getD 220000),
      toB64Url salt, toB64Url iv, cAt, textKind, none, none, none,
      noteNorm opts.note⟩ : PascoHeader)
    (aesGcmEncrypt (deriveKey opts.password salt
      (clampIter (opts.iterations.getD 220000))) iv (utf8Encode text))
    opts.password hct rfl rfl rfl (fromB64_toB64 hs) (fromB64_toB64 hiv)
  unfold decryptToken
  rw [htok, hlem]
  simp only [aesGcmDecrypt_enc, utf8Decode_encode]
  rfl

theorem decryptToken_encryptFile (file : JsFile) (opts : EncryptFileOptions)
    (salt iv : Bytes) (cAt : Str) (hs : ValidBytes salt) (hiv : ValidBytes iv)
    (hc : ValidBytes file.content) :
    decryptToken (encryptFile file opts salt iv cAt).token opts.password
      = Except.ok (DecryptResult.file (encryptFile file opts salt iv cAt).header
          file.content (encryptFile file opts salt iv cAt).fingerprint) := by
  have hct : ValidBytes (aesGcmEncrypt (deriveKey opts.password salt
      (clampIter (opts.iterations.getD 260000))) iv file.content) :=
    valid_aesGcmEncrypt _ _ hs hiv hc
  have htok : (encryptFile file opts salt iv cAt).token
      = tokenOf ⟨1, algStr, kdfStr, clampIter (opts.iterations.getD 260000),
          toB64Url salt, toB64Url iv, cAt, fileKind, some file.name,
          some (if file.type = [] then octetStream else file.type),
          some (file.content.length : Int), noteNorm opts.note⟩
        (aesGcmEncrypt (deriveKey opts.password salt
          (clampIter (opts.iterations.getD 260000))) iv file.content) := rfl
  have hlem := decryptTokenT_tokenOf
    (⟨1, algStr, kdfStr, clampIter (opts.iterations.getD 260000),
      toB64Url salt, toB64Url iv, cAt, fileKind, some file.name,
      some (if file.type = [] then octetStream else file.type),
      some (file.content.length : Int), noteNorm opts.note⟩ : PascoHeader)
    (aesGcmEncrypt (deriveKey opts.password salt
      (clampIter (opts.iterations.getD 260000))) iv file.content)
    opts.password hct rfl rfl rfl (fromB64_toB64 hs) (fromB64_toB64 hiv)
  unfold decryptToken
  rw [htok, hlem]
  simp only [aesGcmDecrypt_enc]
  rw [if_neg (by decide)]
  rfl

theorem decryptToken_encryptText_wrong (text : Str) (opts : EncryptTextOptions)
    (salt iv : Bytes) (cAt : Str) (hs : ValidBytes salt) (hiv : ValidBytes iv)
    (pw2 : Str) (hpw : utf8Encode pw2 ≠ utf8Encode opts.password) :
    decryptToken (encryptText text opts salt iv cAt).token pw2
      = Except.error DecErr.auth := by
  have hct : ValidBytes (aesGcmEncrypt (deriveKey opts.password salt
      (clampIter (opts.iterations.getD 220000))) iv (utf8Encode text)) :=
    valid_aesGcmEncrypt _ _ hs hiv (valid_utf8Encode text)
  have htok : (encryptText text opts salt iv cAt).token
      = tokenOf ⟨1, algStr, kdfStr, clampIter (opts.iterations.getD 220000),
          toB64Url salt, toB64Url iv, cAt, textKind, none, none, none,
          noteNorm opts.note⟩
        (aesGcmEncrypt (deriveKey opts.password salt
          (clampIter (opts.iterations.getD 220000))) iv (utf8Encode text)) := rfl
  have hlem := decryptTokenT_tokenOf
    (⟨1, algStr, kdfStr, clampIter (opts.iterations.getD 220000),
      toB64Url salt, toB64Url iv, cAt, textKind, none, none, none,
      noteNorm opts.note⟩ : PascoHeader)
    (aesGcmEncrypt (deriveKey opts.password salt
      (clampIter (opts.iterations.getD 220000))) iv (utf8Encode text))
    pw2 hct rfl rfl rfl (fromB64_toB64 hs) (fromB64_toB64 hiv)
  have hwrong : aesGcmDecrypt
      (deriveKey pw2 salt (clampIter (opts.iterations.getD 220000)))
      iv (aesGcmEncrypt (deriveKey opts.password salt
        (clampIter (opts.iterations.getD 220000))) iv (utf8Encode text)) = none := by
    refine aesGcmDecrypt_wrong _ _ fun hk => ?_
    refine hpw ?_
    have := congrArg SymKey.pw hk
    simpa [deriveKey] using this
  unfold decryptToken
  rw [htok, hlem]
  simp only [hwrong]

theorem tokC3_ne_nil : trim tokC3 ≠ [] := by
  unfold tokC3
  rw [trim_tokenOf _ _ (by decide)]
  simp [tokenOf, magicStr]

theorem tokC3_decrypt (pw : Str) :
    decryptTokenT tokC3 pw = (Except.error DecErr.badVersion, []) := by
  unfold tokC3 decryptTokenT
  rw [trim_tokenOf _ _ (by decide)]
  unfold decryptTokenBody
  rw [if_pos (startsWith_tokenOf _ _), split_tokenOf _ _ (by decide)]
  simp only [unpack_pack]
  rw [if_pos (by decide)]

theorem tokC3_fingerprint :
    fingerprintFromTokenT tokC3 = (Except.ok fpC3, [CryptoOp.hashOp]) := by
  have h1 : startsWith magicStr (trim tokC3) = true := by
    unfold tokC3
    rw [trim_tokenOf _ _ (by decide)]
    exact startsWith_tokenOf _ _
  have h2 : splitOnDot (trim tokC3)
      = [magicSeg, packHeader hdrC3, toB64Url [1, 2, 3]] := by
    unfold tokC3
    rw [trim_tokenOf _ _ (by decide)]
    exact split_tokenOf _ _ (by decide)
  have h3 : fromB64Url (toB64Url [1, 2, 3]) = some [1, 2, 3] :=
    fromB64_toB64 (by decide)
  exact fingerprintT_of_parts h1 h2 h3

/-- C4: for every plaintext and password (with the fresh random salt and IV
drawn by the source being genuine byte strings), decrypting the token
produced by encryption with the same password returns the original payload
bytes exactly — the original text for the text kind and the original file
content for the file kind. -/
theorem claim4_roundtrip :
    (∀ (text : Str) (opts : EncryptTextOptions) (salt iv : Bytes) (cAt : Str),
      ValidBytes salt → ValidBytes iv →
      decryptToken (encryptText text opts salt iv cAt).token opts.password
        = Except.ok (DecryptResult.text (encryptText text opts salt iv cAt).header
            text (encryptText text opts salt iv cAt).fingerprint)) ∧
    (∀ (file : JsFile) (opts : EncryptFileOptions) (salt iv : Bytes) (cAt : Str),
      ValidBytes salt → ValidBytes iv → ValidBytes file.content →
      decryptToken (encryptFile file opts salt iv cAt).token opts.password
        = Except.ok (DecryptResult.file (encryptFile file opts salt iv cAt).header
            file.content (encryptFile file opts salt iv cAt).fingerprint)) := by
  constructor
  · intro text opts salt iv cAt hs hiv
    exact decryptToken_encryptText text opts salt iv cAt hs hiv
  · intro file opts salt iv cAt hs hiv hc
    exact decryptToken_encryptFile file opts salt iv cAt hs hiv hc

/-- Witness for C4 at concrete inputs. -/
theorem claim4_witness :
    decryptToken (encryptText ['h', 'i'] optsW saltW ivW []).token optsW.password
      = Except.ok (DecryptResult.text (encryptText ['h', 'i'] optsW saltW ivW []).header
          ['h', 'i'] (encryptText ['h', 'i'] optsW saltW ivW []).fingerprint) ∧
    decryptToken (encryptFile ⟨['f'], ['t'], [3, 4]⟩ ⟨['q'], none, none⟩ saltW ivW []).token
        (⟨['q'], none, none⟩ : EncryptFileOptions).password
      = Except.ok (DecryptResult.file
          (encryptFile ⟨['f'], ['t'], [3, 4]⟩ ⟨['q'], none, none⟩ saltW ivW []).header
          [3, 4]
          (encryptFile ⟨['f'], ['t'], [3, 4]⟩ ⟨['q'], none, none⟩ saltW ivW []).fingerprint) :=
  ⟨claim4_roundtrip.1 ['h', 'i'] optsW saltW ivW [] (by decide) (by decide),
   claim4_roundtrip.2 ⟨['f'], ['t'], [3, 4]⟩ ⟨['q'], none, none⟩ saltW ivW []
     (by decide) (by decide) (by decide)⟩

/-- C5: every token that is missing the magic, or does not split into
exactly three dot-separated segments, or whose header segment does not
parse, or whose parsed header carries an unsupported version, algorithm or
KDF tag, is rejected with a format error while the trace of performed
cryptographic operations (key derivation, decryption, hashing) is empty. -/
theorem claim5_format : ∀ (tok pw : Str), BadFormat tok →
    ∃ e, decryptTokenT tok pw = (Except.error e, []) ∧ IsFormatErr e := by
  intro tok pw hbf
  rcases hbf with hpre | hseg | ⟨s0, s1, s2, hsp, hup⟩ |
    ⟨s0, s1, s2, hdr, hsp, hup, hbad⟩
  · refine ⟨DecErr.badMagic, ?_, Or.inl rfl⟩
    unfold decryptTokenT decryptTokenBody
    rw [hpre]
    rfl
  · by_cases hsw : startsWith magicStr (trim tok) = true
    · rcases hsp : splitOnDot (trim tok) with _ | ⟨a, r0⟩
      · exact absurd hsp (splitOnDot_ne_nil _)
      rcases r0 with _ | ⟨b, r1⟩
      · refine ⟨DecErr.badSegments, ?_, Or.inr (Or.inl rfl)⟩
        unfold decryptTokenT decryptTokenBody
        rw [if_pos hsw, hsp]
      rcases r1 with _ | ⟨c, r2⟩
      · refine ⟨DecErr.badSegments, ?_, Or.inr (Or.inl rfl)⟩
        unfold decryptTokenT decryptTokenBody
        rw [if_pos hsw, hsp]
      rcases r2 with _ | ⟨d, r3⟩
      · rw [hsp] at hseg
        simp at hseg
      · refine ⟨DecErr.badSegments, ?_, Or.inr (Or.inl rfl)⟩
        unfold decryptTokenT decryptTokenBody
        rw [if_pos hsw, hsp]
    · have hf : startsWith magicStr (trim tok) = false := by simpa using hsw
      refine ⟨DecErr.badMagic, ?_, Or.inl rfl⟩
      unfold decryptTokenT decryptTokenBody
      rw [hf]
      rfl
  · by_cases hsw : startsWith magicStr (trim tok) = true
    · refine ⟨DecErr.badHeader, ?_, Or.inr (Or.inr (Or.inl rfl))⟩
      unfold decryptTokenT decryptTokenBody
      rw [if_pos hsw, hsp]
      show (match unpackHeader s1 with
        | none => (Except.error DecErr.badHeader, [])
        | some header => _) = _
      rw [hup]
    · have hf : startsWith magicStr (trim tok) = false := by simpa using hsw
      refine ⟨DecErr.badMagic, ?_, Or.inl rfl⟩
      unfold decryptTokenT decryptTokenBody
      rw [hf]
      rfl
  · by_cases hsw : startsWith magicStr (trim tok) = true
    swap
    · have hf : startsWith magicStr (trim tok) = false := by simpa using hsw
      refine ⟨DecErr.badMagic, ?_, Or.inl rfl⟩
      unfold decryptTokenT decryptTokenBody
      rw [hf]
      rfl
    by_cases hv : hdr.v = 1
    swap
    · refine ⟨DecErr.badVersion, ?_, Or.inr (Or.inr (Or.inr (Or.inl rfl)))⟩
      unfold decryptTokenT decryptTokenBody
      rw [if_pos hsw, hsp]
      show (match unpackHeader s1 with
        | none => (Except.error DecErr.badHeader, [])
        | some header => _) = _
      rw [hup]
      show (if hdr.v ≠ 1 then (Except.error DecErr.badVersion, ([] : List CryptoOp))
        else _) = _
      rw [if_pos hv]
    by_cases halg : hdr.alg = algStr
    swap
    · refine ⟨DecErr.badAlg, ?_, Or.inr (Or.inr (Or.inr (Or.inr (Or.inl rfl))))⟩
      unfold decryptTokenT decryptTokenBody
      rw [if_pos hsw, hsp]
      show (match unpackHeader s1 with
        | none => (Except.error DecErr.badHeader, [])
        | some header => _) = _
      rw [hup]
      show (if hdr.v ≠ 1 then (Except.error DecErr.badVersion, ([] : List CryptoOp))
        else if hdr.alg ≠ algStr then (Except.error DecErr.badAlg, [])
        else _) = _
      rw [if_neg (by simp [hv]), if_pos halg]
    by_cases hkdf : hdr.kdf = kdfStr
    swap
    · refine ⟨DecErr.badKdf, ?_,
        Or.inr (Or.inr (Or.inr (Or.inr (Or.inr rfl))))⟩
      unfold decryptTokenT decryptTokenBody
      rw [if_pos hsw, hsp]
      show (match unpackHeader s1 with
        | none => (Except.error DecErr.badHeader, [])
        | some header => _) = _
      rw [hup]
      show (if hdr.v ≠ 1 then (Except.error DecErr.badVersion, ([] : List CryptoOp))
        else if hdr.alg ≠ algStr then (Except.error DecErr.badAlg, [])
        else if hdr.kdf ≠ kdfStr then (Except.error DecErr.badKdf, [])
        else _) = _
      rw [if_neg (by simp [hv]), if_neg (by simp [halg]), if_pos hkdf]
    · rcases hbad with h | h | h <;> contradiction

/-- Witness for C5 at a concrete magic-less token. -/
theorem claim5_witness :
    ∃ e, decryptTokenT ['h', 'i'] ['p'] = (Except.error e, []) ∧ IsFormatErr e :=
  claim5_format ['h', 'i'] ['p'] (Or.inl (by decide))

/-- C6: whenever a decrypt succeeds, its fingerprint is the hash of the
decoded third (ciphertext) segment alone — independent of the password and
of every header field — and equals the password-free
`fingerprintFromToken` of the same token. -/
theorem claim6_fingerprint : ∀ (t p : Str) (r : DecryptResult),
    decryptToken t p = Except.ok r →
    ∃ s0 s1 s2 ct, splitOnDot (trim t) = [s0, s1, s2] ∧
      fromB64Url s2 = some ct ∧ r.fingerprint = sha256Hex ct ∧
      fingerprintFromToken t = Except.ok (sha256Hex ct) := by
  intro t p r h
  obtain ⟨-, -, s0, s1, s2, ct, -, hsp, hctb, hfpr, hfpT⟩ := decrypt_ok_full h
  refine ⟨s0, s1, s2, ct, hsp, hctb, hfpr, ?_⟩
  unfold fingerprintFromToken
  rw [hfpT]

/-- Witness for C6 at a concrete token. -/
theorem claim6_witness :
    ∃ s0 s1 s2 ct, splitOnDot (trim encW.token) = [s0, s1, s2] ∧
      fromB64Url s2 = some ct ∧
      (DecryptResult.text encW.header ['h', 'i'] encW.fingerprint).fingerprint
        = sha256Hex ct ∧
      fingerprintFromToken encW.token = Except.ok (sha256Hex ct) :=
  claim6_fingerprint encW.token ['p', 'w']
    (DecryptResult.text encW.header ['h', 'i'] encW.fingerprint)
    (decryptToken_encryptText ['h', 'i'] optsW saltW ivW [] (by decide) (by decide))

/-- C7: the PBKDF2 iteration count recorded in the header (and used for the
derived key) equals `max(50000, min(600000, requested))`, where an omitted
request defaults to 220000 for text and 260000 for files, so it always lies
in [50000, 600000]. -/
theorem claim7_iterations :
    (∀ (text : Str) (opts : EncryptTextOptions) (salt iv : Bytes) (cAt : Str),
      (encryptText text opts salt iv cAt).header.iter
        = max 50000 (min 600000 (opts.iterations.getD 220000)) ∧
      50000 ≤ (encryptText text opts salt iv cAt).header.iter ∧
      (encryptText text opts salt iv cAt).header.iter ≤ 600000) ∧
    (∀ (file : JsFile) (opts : EncryptFileOptions) (salt iv : Bytes) (cAt : Str),
      (encryptFile file opts salt iv cAt).header.iter
        = max 50000 (min 600000 (opts.iterations.getD 260000)) ∧
      50000 ≤ (encryptFile file opts salt iv cAt).header.iter ∧
      (encryptFile file opts salt iv cAt).header.iter ≤ 600000) := by
  constructor
  · intro text opts salt iv cAt
    refine ⟨rfl, le_max_left _ _, max_le (by norm_num) (min_le_left _ _)⟩
  · intro file opts salt iv cAt
    refine ⟨rfl, le_max_left _ _, max_le (by norm_num) (min_le_left _ _)⟩

/-- C8 (counterexample): a file whose `type` is the empty string gets
`application/octet-stream` recorded in the header, not its own (empty) mime
type, so the header does not preserve the original mime type. -/
theorem claim8_counterexample :
    (encryptFile fileC8 ⟨['p'], none, none⟩ saltW ivW []).header.mime
      = some octetStream ∧
    some octetStream ≠ some fileC8.type := by
  constructor
  · rfl
  · decide

/-- C8 (amended): decrypting a file token with the correct password yields
byte-identical content, and the header preserves the original filename and
size; the mime type is preserved exactly when the file's type is nonempty,
otherwise `application/octet-stream` is recorded. -/
theorem claim8_amended :
    ∀ (file : JsFile) (opts : EncryptFileOptions) (salt iv : Bytes) (cAt : Str),
      ValidBytes salt → ValidBytes iv → ValidBytes file.content →
      decryptToken (encryptFile file opts salt iv cAt).token opts.password
        = Except.ok (DecryptResult.file (encryptFile file opts salt iv cAt).header
            file.content (encryptFile file opts salt iv cAt).fingerprint) ∧
      (encryptFile file opts salt iv cAt).header.filename = some file.name ∧
      (encryptFile file opts salt iv cAt).header.size
        = some (file.content.length : Int) ∧
      (encryptFile file opts salt iv cAt).header.mime
        = some (if file.type = [] then octetStream else file.type) := by
  intro file opts salt iv cAt hs hiv hc
  exact ⟨decryptToken_encryptFile file opts salt iv cAt hs hiv hc, rfl, rfl, rfl⟩

/-- Witness for the amended C8 at a concrete file. -/
theorem claim8_witness :
    decryptToken (encryptFile ⟨['d'], ['t', 'x'], [5, 6]⟩ ⟨['k'], none, none⟩
        saltW ivW []).token (⟨['k'], none, none⟩ : EncryptFileOptions).password
      = Except.ok (DecryptResult.file
          (encryptFile ⟨['d'], ['t', 'x'], [5, 6]⟩ ⟨['k'], none, none⟩ saltW ivW []).header
          [5, 6]
          (encryptFile ⟨['d'], ['t', 'x'], [5, 6]⟩ ⟨['k'], none, none⟩ saltW ivW []).fingerprint) ∧
    (encryptFile ⟨['d'], ['t', 'x'], [5, 6]⟩ ⟨['k'], none, none⟩ saltW ivW []).header.filename
      = some ['d'] ∧
    (encryptFile ⟨['d'], ['t', 'x'], [5, 6]⟩ ⟨['k'], none, none⟩ saltW ivW []).header.size
      = some ((2 : Nat) : Int) ∧
    (encryptFile ⟨['d'], ['t', 'x'], [5, 6]⟩ ⟨['k'], none, none⟩ saltW ivW []).header.mime
      = some (if (['t', 'x'] : Str) = [] then octetStream else ['t', 'x']) :=
  claim8_amended ⟨['d'], ['t', 'x'], [5, 6]⟩ ⟨['k'], none, none⟩ saltW ivW []
    (by decide) (by decide) (by decide)

/-- C9: adding leading or trailing whitespace to the input never changes
the outcome (or the performed crypto operations) of `decryptToken` or
`fingerprintFromToken`, because both trim the token first. -/
theorem claim9_trim : ∀ (ws1 ws2 t p : Str),
    (∀ c ∈ ws1, isJsWs c = true) → (∀ c ∈ ws2, isJsWs c = true) →
    decryptTokenT (ws1 ++ t ++ ws2) p = decryptTokenT t p ∧
    fingerprintFromTokenT (ws1 ++ t ++ ws2) = fingerprintFromTokenT t := by
  intro ws1 ws2 t p h1 h2
  constructor
  · unfold decryptTokenT
    rw [trim_ws_append t h1 h2]
  · unfold fingerprintFromTokenT
    rw [trim_ws_append t h1 h2]

/-- Witness for C9 at concrete whitespace and token. -/
theorem claim9_witness :
    decryptTokenT ([' '] ++ ['x'] ++ [Char.ofNat 10]) ['p'] = decryptTokenT ['x'] ['p'] ∧
    fingerprintFromTokenT ([' '] ++ ['x'] ++ [Char.ofNat 10]) = fingerprintFromTokenT ['x'] :=
  claim9_trim [' '] [Char.ofNat 10] ['x'] ['p'] (by decide) (by decide)

/-- C10: `decryptToken` never validates the header's `kind`: whenever a
token passes the format checks and the ciphertext authenticates, any kind
other than exactly `"text"` produces a file result carrying the raw
decrypted bytes rather than a format error. -/
theorem claim10_kind : ∀ (t p : Str) (s0 s1 s2 : Str) (hdr : PascoHeader)
    (salt iv ct pt : Bytes),
    startsWith magicStr (trim t) = true →
    splitOnDot (trim t) = [s0, s1, s2] →
    unpackHeader s1 = some hdr →
    hdr.v = 1 → hdr.alg = algStr → hdr.kdf = kdfStr →
    fromB64Url hdr.salt = some salt →
    fromB64Url hdr.iv = some iv →
    fromB64Url s2 = some ct →
    aesGcmDecrypt (deriveKey p salt hdr.iter) iv ct = some pt →
    hdr.kind ≠ textKind →
    decryptToken t p = Except.ok (DecryptResult.file hdr pt (sha256Hex ct)) := by
  intro t p s0 s1 s2 hdr salt iv ct pt hsw hsp hup hv halg hkdf hsalt hivb hctb hdec hk
  have hT : decryptTokenT t p = (Except.ok (DecryptResult.file hdr pt (sha256Hex ct)),
      [CryptoOp.deriveKeyOp, CryptoOp.aeadDecryptOp, CryptoOp.hashOp]) := by
    unfold decryptTokenT decryptTokenBody
    rw [if_pos hsw, hsp]
    show (match unpackHeader s1 with
      | none => (Except.error DecErr.badHeader, [])
      | some header => _) = _
    rw [hup]
    show (if hdr.v ≠ 1 then (Except.error DecErr.badVersion, ([] : List CryptoOp))
      else if hdr.alg ≠ algStr then (Except.error DecErr.badAlg, [])
      else if hdr.kdf ≠ kdfStr then (Except.error DecErr.badKdf, [])
      else _) = _
    rw [if_neg (by simp [hv]), if_neg (by simp [halg]), if_neg (by simp [hkdf])]
    simp only [hsalt, hivb, hctb, hdec, hk, if_false, ite_false]
  unfold decryptToken
  rw [hT]

/-- Witness for C10: a concrete token whose header kind is `"blob"`
decrypts to a file result with the raw bytes. -/
theorem claim10_witness :
    decryptToken tokC10 ['p'] = Except.ok (DecryptResult.file hdrC10 [9, 9]
      (sha256Hex (aesGcmEncrypt (deriveKey ['p'] saltW 7) ivW [9, 9]))) := by
  have hval : ValidBytes (aesGcmEncrypt (deriveKey ['p'] saltW 7) ivW [9, 9]) :=
    valid_aesGcmEncrypt _ _ (by decide) (by decide) (by decide)
  have hsw : startsWith magicStr (trim tokC10) = true := by
    unfold tokC10
    rw [trim_tokenOf _ _ hval]
    exact startsWith_tokenOf _ _
  have hsp : splitOnDot (trim tokC10) = [magicSeg, packHeader hdrC10,
      toB64Url (aesGcmEncrypt (deriveKey ['p'] saltW 7) ivW [9, 9])] := by
    unfold tokC10
    rw [trim_tokenOf _ _ hval]
    exact split_tokenOf _ _ hval
  exact claim10_kind tokC10 ['p'] magicSeg (packHeader hdrC10)
    (toB64Url (aesGcmEncrypt (deriveKey ['p'] saltW 7) ivW [9, 9]))
    hdrC10 saltW ivW (aesGcmEncrypt (deriveKey ['p'] saltW 7) ivW [9, 9]) [9, 9]
    hsw hsp (unpack_pack hdrC10) rfl rfl rfl
    (fromB64_toB64 (by decide)) (fromB64_toB64 (by decide)) (fromB64_toB64 hval)
    (aesGcmDecrypt_enc (deriveKey ['p'] saltW 7) ivW [9, 9]) (by decide)

/-- C1 (counterexample): with the fingerprint's counter already at the
maximum and the correct password supplied, `runDecrypt` does refuse with the
locked outcome — but its crypto-operation trace shows that key derivation
and AEAD decryption were performed first, contradicting the claim that the
refusal happens before any key derivation or AEAD decryption. -/
theorem claim1_counterexample :
    (runDecrypt [(encW.fingerprint, 5)] encW.token ['p', 'w']).outcome
      = RunOutcome.locked encW.fingerprint ∧
    CryptoOp.deriveKeyOp ∈ (runDecrypt [(encW.fingerprint, 5)] encW.token ['p', 'w']).ops ∧
    CryptoOp.aeadDecryptOp ∈ (runDecrypt [(encW.fingerprint, 5)] encW.token ['p', 'w']).ops := by
  have h : decryptToken encW.token ['p', 'w']
      = Except.ok (DecryptResult.text encW.header ['h', 'i'] encW.fingerprint) :=
    decryptToken_encryptText ['h', 'i'] optsW saltW ivW [] (by decide) (by decide)
  have hge : getAttempts [(encW.fingerprint, 5)]
      (DecryptResult.text encW.header ['h', 'i'] encW.fingerprint).fingerprint
        ≥ maxAttempts := by
    simp [getAttempts, DecryptResult.fingerprint, maxAttempts]
  rw [runDecrypt_ok_locked h hge (by decide)]
  exact ⟨rfl, by simp, by simp⟩

/-- C1 (amended): when a fingerprint's counter has reached the maximum, a
decrypt attempt with the correct password is refused with the locked error
and the counter map left unchanged, but only after key derivation, AEAD
decryption and the fingerprint hash have been performed; an attempt with a
wrong password instead fails as wrong-key-locked and increments the counter
past the maximum. -/
theorem claim1_amended :
    (∀ (m : AttemptsMap) (tok pw : Str) (r : DecryptResult),
      decryptToken tok pw = Except.ok r →
      getAttempts m r.fingerprint ≥ maxAttempts →
      trim pw ≠ [] →
      runDecrypt m tok pw = ⟨RunOutcome.locked r.fingerprint, m,
        [CryptoOp.deriveKeyOp, CryptoOp.aeadDecryptOp, CryptoOp.hashOp]⟩) ∧
    (∀ (m : AttemptsMap) (tok pw fp : Str) (ops2 : List CryptoOp),
      decryptToken tok pw = Except.error DecErr.auth →
      fingerprintFromTokenT tok = (Except.ok fp, ops2) →
      getAttempts m fp ≥ maxAttempts →
      trim pw ≠ [] →
      runDecrypt m tok pw = ⟨RunOutcome.wrongKeyLocked fp,
        setAttempts m fp (getAttempts m fp + 1),
        [CryptoOp.deriveKeyOp, CryptoOp.aeadDecryptOp] ++ ops2⟩) := by
  constructor
  · intro m tok pw r hok hge hpw
    exact runDecrypt_ok_locked hok hge hpw
  · intro m tok pw fp ops2 hauth hfp hge hpw
    obtain ⟨hT, htok, -⟩ := decrypt_auth_full hauth
    refine runDecrypt_err_fp_locked hT hfp htok hpw ?_
    simp only [maxAttempts, ge_iff_le] at hge
    omega

/-- Witness for the amended C1 at a concrete locked token. -/
theorem claim1_witness :
    runDecrypt [(encW.fingerprint, 5)] encW.token ['p', 'w']
      = ⟨RunOutcome.locked encW.fingerprint, [(encW.fingerprint, 5)],
         [CryptoOp.deriveKeyOp, CryptoOp.aeadDecryptOp, CryptoOp.hashOp]⟩ :=
  claim1_amended.1 [(encW.fingerprint, 5)] encW.token ['p', 'w']
    (DecryptResult.text encW.header ['h', 'i'] encW.fingerprint)
    (decryptToken_encryptText ['h', 'i'] optsW saltW ivW [] (by decide) (by decide))
    (by simp [getAttempts, DecryptResult.fingerprint, maxAttempts])
    (by decide)

/-- C2: with max-attempts 5, after five consecutive wrong-password attempts
against a fingerprint that started at zero, a sixth attempt with the
correct password ends in the locked outcome; and a successful decrypt of a
fingerprint whose counter is below 5 succeeds and resets the counter
to 0. -/
theorem claim2_lockout :
    (∀ (m0 : AttemptsMap) (tok pwGood : Str) (r : DecryptResult) (pws : List Str),
      decryptToken tok pwGood = Except.ok r →
      pws.length = 5 →
      (∀ p ∈ pws, decryptToken tok p = Except.error DecErr.auth ∧ trim p ≠ []) →
      getAttempts m0 r.fingerprint = 0 →
      trim pwGood ≠ [] →
      (runDecrypt (runMany m0 tok pws) tok pwGood).outcome
        = RunOutcome.locked r.fingerprint) ∧
    (∀ (m : AttemptsMap) (tok pw : Str) (r : DecryptResult),
      decryptToken tok pw = Except.ok r →
      getAttempts m r.fingerprint < maxAttempts →
      trim pw ≠ [] →
      (runDecrypt m tok pw).outcome = RunOutcome.success r ∧
      getAttempts (runDecrypt m tok pw).attempts r.fingerprint = 0) := by
  constructor
  · intro m0 tok pwGood r pws hok hlen hall h0 hpw
    obtain ⟨-, htok, s0, s1, s2, ct, hsw, hsp, hctb, hfpr, hfpT⟩ := decrypt_ok_full hok
    have hc := runMany_wrong_counter hfpT pws m0 hall
    rw [← hfpr] at hc
    have hge : getAttempts (runMany m0 tok pws) r.fingerprint ≥ maxAttempts := by
      rw [hc, h0, hlen]
      simp [maxAttempts]
    rw [runDecrypt_ok_locked hok hge hpw]
  · intro m tok pw r hok hlt hpw
    rw [runDecrypt_ok_success hok hlt hpw]
    exact ⟨rfl, get_set_same _ _ _⟩

/-- Witness for C2: five concrete wrong attempts lock a concrete token
against its own correct password. -/
theorem claim2_witness :
    (runDecrypt (runMany [] encW.token (List.replicate 5 ['x']))
        encW.token ['p', 'w']).outcome
      = RunOutcome.locked encW.fingerprint := by
  refine claim2_lockout.1 [] encW.token ['p', 'w']
    (DecryptResult.text encW.header ['h', 'i'] encW.fingerprint)
    (List.replicate 5 ['x'])
    (decryptToken_encryptText ['h', 'i'] optsW saltW ivW [] (by decide) (by decide))
    (by simp) ?_ rfl (by decide)
  intro p hp
  have hpx := List.eq_of_mem_replicate hp
  subst hpx
  exact ⟨decryptToken_encryptText_wrong ['h', 'i'] optsW saltW ivW []
    (by decide) (by decide) ['x'] (by decide), by decide⟩

/-- C3 (counterexample): a token whose magic and segment count are fine but
whose header carries the unsupported version 2 fails with a FormatError,
yet `runDecrypt` still charges an attempt to the ciphertext fingerprint —
the attempt map does not stay unchanged. -/
theorem claim3_counterexample :
    decryptToken tokC3 ['x'] = Except.error DecErr.badVersion ∧
    (runDecrypt [] tokC3 ['x']).attempts = [(fpC3, 1)] ∧
    ([] : AttemptsMap) ≠ [(fpC3, 1)] := by
  refine ⟨?_, ?_, by simp⟩
  · unfold decryptToken
    rw [tokC3_decrypt]
  · rw [runDecrypt_err_fp_attempts (tokC3_decrypt ['x']) tokC3_fingerprint
      tokC3_ne_nil (by decide)]
    rfl

/-- C3 (amended): a decrypt attempt changes the counter map as follows:
any failure for which the ciphertext fingerprint is computable — an
AuthenticationError, and also header-level FormatErrors (unparseable
header, unsupported tags) on a token whose magic, segment count and
ciphertext segment are well-formed — increments that fingerprint's counter
by exactly 1; a failure for which the fingerprint is not computable
(missing magic, wrong segment count, undecodable ciphertext segment)
leaves the map unchanged; a success resets the counter to 0 unless it had
already reached the maximum, in which case the map is unchanged. -/
theorem claim3_amended :
    (∀ (m : AttemptsMap) (tok pw fp : Str) (e : DecErr) (ops ops2 : List CryptoOp),
      decryptTokenT tok pw = (Except.error e, ops) →
      fingerprintFromTokenT tok = (Except.ok fp, ops2) →
      trim tok ≠ [] → trim pw ≠ [] →
      (runDecrypt m tok pw).attempts = setAttempts m fp (getAttempts m fp + 1)) ∧
    (∀ (m : AttemptsMap) (tok pw : Str) (e e2 : DecErr) (ops ops2 : List CryptoOp),
      decryptTokenT tok pw = (Except.error e, ops) →
      fingerprintFromTokenT tok = (Except.error e2, ops2) →
      trim tok ≠ [] → trim pw ≠ [] →
      (runDecrypt m tok pw).attempts = m) ∧
    (∀ (m : AttemptsMap) (tok pw : Str) (r : DecryptResult),
      decryptToken tok pw = Except.ok r →
      trim pw ≠ [] →
      (runDecrypt m tok pw).attempts =
        if getAttempts m r.fingerprint ≥ maxAttempts then m
        else setAttempts m r.fingerprint 0) := by
  refine ⟨?_, ?_, ?_⟩
  · intro m tok pw fp e ops ops2 hT hfp htok hpw
    exact runDecrypt_err_fp_attempts hT hfp htok hpw
  · intro m tok pw e e2 ops ops2 hT hfp htok hpw
    rw [runDecrypt_err_nofp hT hfp htok hpw]
  · intro m tok pw r hok hpw
    by_cases hge : getAttempts m r.fingerprint ≥ maxAttempts
    · rw [runDecrypt_ok_locked hok hge hpw, if_pos hge]
    · rw [runDecrypt_ok_success hok (by omega) hpw, if_neg hge]

/-- Witness for the amended C3 on the concrete version-2 token. -/
theorem claim3_witness :
    (runDecrypt [] tokC3 ['x']).attempts
      = setAttempts [] fpC3 (getAttempts [] fpC3 + 1) :=
  claim3_amended.1 [] tokC3 ['x'] fpC3 DecErr.badVersion [] [CryptoOp.hashOp]
    (tokC3_decrypt ['x']) tokC3_fingerprint tokC3_ne_nil (by decide)

end Pasco
